import Mathlib

/-!
Verification of the record-bridge core of the aimdb-homepilot repository:
the textual (JSON) codecs and KNX bus codecs for switch and temperature
records, as implemented in `records/src/switch.rs`, `records/src/temperature.rs`
and the inline closures of `knx-gateway/src/main.rs`.

Payloads are modelled as lists of bytes (`List Nat`, each < 256); Rust `&str`
content is modelled as `List Char`; the `heapless::String<16>` address field is
modelled by `HString16`; `f32` temperature values are modelled over `ℚ`.
-/

deriving instance DecidableEq for Except

namespace HomePilot

/-! ## Character classes (Rust `char` predicates used by the parsers) -/

/-- Rust `char::is_whitespace` (the Unicode White_Space property). -/
def rustIsWhitespace (c : Char) : Bool :=
  decide ((0x09 ≤ c.toNat ∧ c.toNat ≤ 0x0D) ∨ c.toNat = 0x20 ∨ c.toNat = 0x85 ∨
    c.toNat = 0xA0 ∨ c.toNat = 0x1680 ∨ (0x2000 ≤ c.toNat ∧ c.toNat ≤ 0x200A) ∨
    c.toNat = 0x2028 ∨ c.toNat = 0x2029 ∨ c.toNat = 0x202F ∨ c.toNat = 0x205F ∨
    c.toNat = 0x3000)

/-- ASCII decimal digit, as in Rust `char::is_ascii_digit`. -/
def isAsciiDigit (c : Char) : Bool :=
  decide (48 ≤ c.toNat ∧ c.toNat ≤ 57)

/-- The KNX group-address alphabet used by this repository: digits and a slash. -/
def isAddrChar (c : Char) : Bool :=
  isAsciiDigit c || c = '/'

/-- A brace character, the pattern of the `trim_matches` call in the parsers. -/
def isBraceChar (c : Char) : Bool :=
  c = '{' || c = '}'

/-! ## List splitting (Rust `str::split(char)`) -/

/-- Model of Rust `str::split(sep)` on a character separator: splits at every
occurrence, keeping empty pieces, and yields one piece for the empty input. -/
def splitOnChar (sep : Char) : List Char → List (List Char)
  | [] => [[]]
  | c :: cs =>
    let r := splitOnChar sep cs
    if c = sep then [] :: r
    else
      match r with
      | [] => [[c]]
      | p :: ps => (c :: p) :: ps

theorem splitOnChar_ne_nil (sep : Char) (l : List Char) : splitOnChar sep l ≠ [] := by
  induction l with
  | nil => simp [splitOnChar]
  | cons c cs ih =>
    simp only [splitOnChar]
    split
    · simp
    · cases h : splitOnChar sep cs with
      | nil => simp
      | cons p ps => simp [h]

theorem splitOnChar_of_not_mem (sep : Char) (a : List Char) (h : ∀ c ∈ a, c ≠ sep) :
    splitOnChar sep a = [a] := by
  induction a with
  | nil => rfl
  | cons c cs ih =>
    have hc : c ≠ sep := h c (by simp)
    have := ih (fun x hx => h x (by simp [hx]))
    simp [splitOnChar, this, hc]

theorem splitOnChar_append (sep : Char) (a r : List Char) (h : ∀ c ∈ a, c ≠ sep) :
    splitOnChar sep (a ++ sep :: r) = a :: splitOnChar sep r := by
  induction a with
  | nil => simp [splitOnChar]
  | cons c cs ih =>
    have hc : c ≠ sep := h c (by simp)
    have h2 := ih (fun x hx => h x (by simp [hx]))
    simp only [List.cons_append, splitOnChar, List.append_eq]
    rw [if_neg hc, h2]

/-! ## Trimming (Rust `str::trim_matches` and `str::trim`) -/

/-- Drop matching characters from the end of a list. -/
def dropEndWhile (p : Char → Bool) (l : List Char) : List Char :=
  (l.reverse.dropWhile p).reverse

/-- Model of Rust `str::trim_matches(pat)`: strip every leading and trailing
character matching the pattern. -/
def trimMatchesP (p : Char → Bool) (l : List Char) : List Char :=
  dropEndWhile p (l.dropWhile p)

/-- Model of Rust `str::trim()`. -/
def trimWs (l : List Char) : List Char := trimMatchesP rustIsWhitespace l

/-- Model of Rust `str::trim_matches('"')`. -/
def trimQuotes (l : List Char) : List Char := trimMatchesP (fun c => c = '"') l

theorem dropWhile_of_all_false {p : Char → Bool} {l : List Char}
    (h : ∀ c ∈ l, p c = false) : l.dropWhile p = l := by
  induction l with
  | nil => rfl
  | cons c cs ih =>
    have hc : p c = false := h c (by simp)
    simp [List.dropWhile_cons, hc, ih (fun x hx => h x (by simp [hx]))]

theorem trimMatchesP_of_all_false {p : Char → Bool} {l : List Char}
    (h : ∀ c ∈ l, p c = false) : trimMatchesP p l = l := by
  have h1 : l.dropWhile p = l := dropWhile_of_all_false h
  have h2 : l.reverse.dropWhile p = l.reverse :=
    dropWhile_of_all_false (fun c hc => h c (List.mem_reverse.mp hc))
  simp [trimMatchesP, dropEndWhile, h1, h2]

theorem dropEndWhile_append_one {p : Char → Bool} {c2 : Char} {l : List Char}
    (h2 : p c2 = true) (h : ∀ c ∈ l, p c = false) :
    dropEndWhile p (l ++ [c2]) = l := by
  have hrev : l.reverse.dropWhile p = l.reverse :=
    dropWhile_of_all_false (fun c hc => h c (List.mem_reverse.mp hc))
  simp [dropEndWhile, List.reverse_append, List.dropWhile_cons, h2, hrev]

theorem trimMatchesP_wrap {p : Char → Bool} {c1 c2 : Char} {l : List Char}
    (h1 : p c1 = true) (h2 : p c2 = true) (h : ∀ c ∈ l, p c = false) :
    trimMatchesP p (c1 :: (l ++ [c2])) = l := by
  cases l with
  | nil => simp [trimMatchesP, dropEndWhile, List.dropWhile_cons, h1, h2]
  | cons a l' =>
    have ha : p a = false := h a (by simp)
    have hdrop : (c1 :: ((a :: l') ++ [c2])).dropWhile p = (a :: l') ++ [c2] := by
      simp [List.dropWhile_cons, h1, ha]
    rw [trimMatchesP, hdrop, dropEndWhile_append_one h2 h]

/-! ## Decimal rendering and parsing (Rust `Display` for integers, `str::parse`) -/

/-- The ASCII character of a decimal digit. -/
def digitChar (n : Nat) : Char :=
  match n with
  | 0 => '0' | 1 => '1' | 2 => '2' | 3 => '3' | 4 => '4'
  | 5 => '5' | 6 => '6' | 7 => '7' | 8 => '8' | 9 => '9'
  | _ => '*'

/-- Fuel-indexed decimal rendering; the fuel bounds the number of digits. -/
def natToCharsAux : Nat → Nat → List Char
  | 0, _ => []
  | fuel + 1, n =>
    if n < 10 then [digitChar n]
    else natToCharsAux fuel (n / 10) ++ [digitChar (n % 10)]

/-- Model of Rust `Display` for an unsigned integer: its decimal digits. -/
def natToChars (n : Nat) : List Char := natToCharsAux (n + 1) n

/-- Value of a list of ASCII digits read in base 10. -/
def digitsToNat (l : List Char) : Nat :=
  l.foldl (fun a c => a * 10 + (c.toNat - 48)) 0

/-- Model of Rust `str::parse::<u64>()`: an optional leading plus sign, then
one or more ASCII digits, with the value bounded by `u64::MAX`. -/
def parseU64 (l : List Char) : Option Nat :=
  let digits :=
    match l with
    | c :: rest => if c = '+' then rest else l
    | [] => l
  if digits ≠ [] ∧ digits.all isAsciiDigit then
    if digitsToNat digits < 2 ^ 64 then some (digitsToNat digits) else none
  else none

/-- Model of Rust `str::parse::<f32>()` restricted to plain decimal literals
(optional sign, integer digits, optional fractional digits), which covers every
numeric form this repository's serializers emit; the value is kept exact in
`ℚ`. Exponent, infinity and NaN forms are not modelled. -/
def parseDecimalQ (l : List Char) : Option ℚ :=
  let sgn : ℚ × List Char :=
    match l with
    | c :: rest => if c = '-' then (-1, rest) else if c = '+' then (1, rest) else (1, l)
    | [] => (1, l)
  match splitOnChar '.' sgn.2 with
  | [ip] =>
    if ip ≠ [] ∧ ip.all isAsciiDigit then some (sgn.1 * digitsToNat ip) else none
  | [ip, fp] =>
    if (ip ≠ [] ∨ fp ≠ []) ∧ ip.all isAsciiDigit ∧ fp.all isAsciiDigit then
      some (sgn.1 * ((digitsToNat ip : ℚ) + (digitsToNat fp : ℚ) / 10 ^ fp.length))
    else none
  | _ => none

theorem digitChar_toNat {n : Nat} (h : n < 10) : (digitChar n).toNat = 48 + n := by
  interval_cases n <;> rfl

theorem isAsciiDigit_digitChar {n : Nat} (h : n < 10) : isAsciiDigit (digitChar n) = true := by
  interval_cases n <;> rfl

theorem digitsToNat_append_one (l : List Char) (c : Char) :
    digitsToNat (l ++ [c]) = digitsToNat l * 10 + (c.toNat - 48) := by
  simp [digitsToNat, List.foldl_append]

theorem natToCharsAux_spec :
    ∀ fuel n, n ≤ fuel →
      digitsToNat (natToCharsAux (fuel + 1) n) = n ∧
      (∀ c ∈ natToCharsAux (fuel + 1) n, isAsciiDigit c = true) ∧
      natToCharsAux (fuel + 1) n ≠ [] := by
  intro fuel
  induction fuel with
  | zero =>
    intro n hn
    have : n = 0 := Nat.le_zero.mp hn
    subst this
    refine ⟨rfl, ?_, by simp [natToCharsAux]⟩
    intro c hc
    simp [natToCharsAux] at hc
    simp [hc]
    rfl
  | succ f ih =>
    intro n hn
    by_cases h10 : n < 10
    · refine ⟨?_, ?_, ?_⟩
      · simp [natToCharsAux, h10, digitsToNat, digitChar_toNat h10]
      · intro c hc
        simp [natToCharsAux, h10] at hc
        simp [hc, isAsciiDigit_digitChar h10]
      · simp [natToCharsAux, h10]
    · have hdiv : n / 10 ≤ f := by omega
      obtain ⟨ih1, ih2, _⟩ := ih (n / 10) hdiv
      have hunfold : natToCharsAux (f + 1 + 1) n =
          natToCharsAux (f + 1) (n / 10) ++ [digitChar (n % 10)] := by
        simp [natToCharsAux, h10]
      refine ⟨?_, ?_, ?_⟩
      · rw [hunfold, digitsToNat_append_one, ih1, digitChar_toNat (by omega)]
        omega
      · intro c hc
        rw [hunfold] at hc
        rcases List.mem_append.mp hc with h | h
        · exact ih2 c h
        · simp at h
          simp [h, isAsciiDigit_digitChar (n := n % 10) (by omega)]
      · rw [hunfold]
        simp

theorem digitsToNat_natToChars (n : Nat) : digitsToNat (natToChars n) = n :=
  (natToCharsAux_spec n n le_rfl).1

theorem natToChars_all_digits (n : Nat) : ∀ c ∈ natToChars n, isAsciiDigit c = true :=
  (natToCharsAux_spec n n le_rfl).2.1

theorem natToChars_ne_nil (n : Nat) : natToChars n ≠ [] :=
  (natToCharsAux_spec n n le_rfl).2.2

theorem isAsciiDigit_toNat {c : Char} (h : isAsciiDigit c = true) :
    48 ≤ c.toNat ∧ c.toNat ≤ 57 := by
  simpa [isAsciiDigit] using h

theorem parseU64_natToChars {n : Nat} (h : n < 2 ^ 64) :
    parseU64 (natToChars n) = some n := by
  have hall : (natToChars n).all isAsciiDigit = true :=
    List.all_eq_true.mpr (fun c hc => natToChars_all_digits n c hc)
  have hne : natToChars n ≠ [] := natToChars_ne_nil n
  cases hl : natToChars n with
  | nil => exact absurd hl hne
  | cons c rest =>
    have hc : isAsciiDigit c = true := by
      have := natToChars_all_digits n c (by rw [hl]; simp)
      exact this
    have hplus : c ≠ '+' := by
      intro he
      subst he
      simp [isAsciiDigit] at hc
    have hval : digitsToNat (c :: rest) = n := by
      rw [← hl]; exact digitsToNat_natToChars n
    rw [hl] at hall
    simp only [parseU64, if_neg hplus]
    have hcond : (c :: rest ≠ [] ∧ (c :: rest).all isAsciiDigit = true) := ⟨by simp, hall⟩
    rw [if_pos hcond, if_pos (by rw [hval]; exact h), hval]

/-! ## UTF-8 (Rust `str::from_utf8` / `String::into_bytes`) -/

/-- UTF-8 encoding of one Unicode scalar value. -/
def utf8EncodeChar (c : Char) : List Nat :=
  let n := c.toNat
  if n < 0x80 then [n]
  else if n < 0x800 then [0xC0 + n / 64, 0x80 + n % 64]
  else if n < 0x10000 then [0xE0 + n / 4096, 0x80 + n / 64 % 64, 0x80 + n % 64]
  else [0xF0 + n / 262144, 0x80 + n / 4096 % 64, 0x80 + n / 64 % 64, 0x80 + n % 64]

/-- UTF-8 encoding of a character list; models Rust `String::into_bytes`. -/
def utf8Encode : List Char → List Nat
  | [] => []
  | c :: cs => utf8EncodeChar c ++ utf8Encode cs

/-- Byte length of a character list's UTF-8 form, the capacity measure of
`heapless::String`. -/
def utf8Len (l : List Char) : Nat := (utf8Encode l).length

/-- A UTF-8 continuation byte. -/
def isContByte (b : Nat) : Bool := decide (0x80 ≤ b ∧ b < 0xC0)

/-- State of the UTF-8 validating decoder: characters decoded so far (in
reverse), the partial code point, the number of continuation bytes still
expected, the smallest admissible final code point (overlong rejection), and
an error flag. -/
structure Utf8State where
  acc : List Char
  cp : Nat
  need : Nat
  minCp : Nat
  bad : Bool
deriving DecidableEq, Repr

/-- Initial decoder state. -/
def utf8Init : Utf8State := ⟨[], 0, 0, 0, false⟩

/-- A completed code point is admissible: not overlong, not a surrogate, in
Unicode range. -/
def validCp (minCp cp : Nat) : Bool :=
  decide (minCp ≤ cp ∧ ¬(0xD800 ≤ cp ∧ cp < 0xE000) ∧ cp < 0x110000)

/-- One byte of strict UTF-8 decoding. -/
def utf8Step (st : Utf8State) (b : Nat) : Utf8State :=
  if st.bad then st
  else if 0 < st.need then
    if isContByte b then
      if st.need = 1 then
        if validCp st.minCp (st.cp * 64 + (b - 0x80)) then
          ⟨Char.ofNat (st.cp * 64 + (b - 0x80)) :: st.acc, 0, 0, 0, false⟩
        else ⟨st.acc, 0, 0, 0, true⟩
      else ⟨st.acc, st.cp * 64 + (b - 0x80), st.need - 1, st.minCp, false⟩
    else ⟨st.acc, 0, 0, 0, true⟩
  else if b < 0x80 then ⟨Char.ofNat b :: st.acc, 0, 0, 0, false⟩
  else if b < 0xC0 then ⟨st.acc, 0, 0, 0, true⟩
  else if b < 0xE0 then ⟨st.acc, b - 0xC0, 1, 0x80, false⟩
  else if b < 0xF0 then ⟨st.acc, b - 0xE0, 2, 0x800, false⟩
  else if b < 0xF5 then ⟨st.acc, b - 0xF0, 3, 0x10000, false⟩
  else ⟨st.acc, 0, 0, 0, true⟩

/-- Strict UTF-8 decoding of a byte list; models Rust `str::from_utf8`:
rejects continuation-byte errors, truncated sequences, overlong forms,
surrogates, and out-of-range code points. -/
def utf8Decode (data : List Nat) : Option (List Char) :=
  let st := data.foldl utf8Step utf8Init
  if st.bad = false ∧ st.need = 0 then some st.acc.reverse else none

theorem utf8EncodeChar_ascii {c : Char} (h : c.toNat < 128) :
    utf8EncodeChar c = [c.toNat] := by
  simp [utf8EncodeChar, h]

theorem utf8Len_ascii {l : List Char} (h : ∀ c ∈ l, c.toNat < 128) :
    utf8Len l = l.length := by
  induction l with
  | nil => rfl
  | cons c cs ih =>
    have hc := h c (by simp)
    have := ih (fun x hx => h x (by simp [hx]))
    simp only [utf8Len, utf8Encode, utf8EncodeChar_ascii hc] at *
    simp [this]

theorem Char.ofNat_toNat_eq {c : Char} : Char.ofNat c.toNat = c := by
  have hv : Nat.isValidChar c.toNat := by
    rcases c with ⟨v, hval⟩
    simpa [Char.toNat, UInt32.isValidChar] using hval
  simp only [Char.ofNat, hv, dif_pos]
  apply Char.eq_of_val_eq
  apply UInt32.eq_of_toBitVec_eq
  apply BitVec.eq_of_toNat_eq
  simp [Char.ofNatAux, Char.toNat]
  rfl

theorem utf8Step_clean_ascii {b : Nat} (hb : b < 128) (acc : List Char) :
    utf8Step ⟨acc, 0, 0, 0, false⟩ b = ⟨Char.ofNat b :: acc, 0, 0, 0, false⟩ := by
  simp [utf8Step, hb]

theorem foldl_utf8Step_ascii  {l : List Char} (h : ∀ c ∈ l, c.toNat < 128) :
    ∀ acc : List Char,
      (utf8Encode l).foldl utf8Step ⟨acc, 0, 0, 0, false⟩ =
        ⟨l.reverse ++ acc, 0, 0, 0, false⟩ := by
  induction l with
  | nil => intro acc; rfl
  | cons c cs ih =>
    intro acc
    have hc := h c (by simp)
    have ihl := ih (fun x hx => h x (by simp [hx]))
    simp only [utf8Encode, utf8EncodeChar_ascii hc, List.singleton_append, List.foldl_cons]
    rw [utf8Step_clean_ascii hc, ihl (Char.ofNat c.toNat :: acc), Char.ofNat_toNat_eq]
    simp

theorem utf8Decode_encode_ascii {l : List Char} (h : ∀ c ∈ l, c.toNat < 128) :
    utf8Decode (utf8Encode l) = some l := by
  simp only [utf8Decode, utf8Init]
  rw [foldl_utf8Step_ascii h []]
  simp

/-! ## `heapless::String<16>` (the no_std address field) -/

/-- Model of `heapless::String<16>`: a string with a 16-byte capacity.  The
capacity constraint is enforced by the `pushStr` operations, matching the
Rust API where the only mutation used by this repository is `push_str`. -/
structure HString16 where
  chars : List Char
deriving DecidableEq, Repr

/-- The empty `heapless::String::<16>::new()`. -/
def HString16.empty : HString16 := ⟨[]⟩

/-- Model of `heapless::String::push_str`: all-or-nothing append, failing
when the UTF-8 byte length would exceed the 16-byte capacity. -/
def HString16.pushStr (h : HString16) (s : List Char) : Except Unit HString16 :=
  if utf8Len h.chars + utf8Len s ≤ 16 then .ok ⟨h.chars ++ s⟩ else .error ()

/-- `let _ = h.push_str(s);` — the result is dropped, a failed push leaves
the string unchanged. -/
def HString16.pushStrSilent (h : HString16) (s : List Char) : HString16 :=
  match h.pushStr s with
  | .ok h2 => h2
  | .error _ => h

/-! ## KNX datapoint codecs (`aimdb_knx_connector::dpt`)

Modelled from the spec: the `Dpt1` (boolean, DPT 1.001) and `Dpt9`
(2-byte float, DPT 9.001) codecs live in the external `aimdb-knx-connector`
crate and are not part of this repository's sources; only their call sites
are.  They are modelled from spec §4.1: fixed width per datapoint type,
`DecodeError::LengthMismatch` on a wrong-length buffer, boolean in the least
significant bit of one byte, temperature as a 2-byte sign-mantissa-exponent
packed float. -/

/-- Modelled from the spec: the decode-failure taxonomy of §7; the only
variant this development needs is the wrong-length case of §4.1. -/
inductive DecodeError where
  | lengthMismatch
deriving DecidableEq, Repr

/-- Modelled from the spec: DPT 1.001 decode — exactly one byte, only the
least-significant bit significant, `LengthMismatch` otherwise. -/
def dpt1Decode (data : List Nat) : Except DecodeError Bool :=
  match data with
  | [b] => .ok (b % 2 = 1)
  | _ => .error .lengthMismatch

/-- Modelled from the spec: DPT 1.001 encode — one byte, zero-filled except
for the least-significant bit. -/
def dpt1Encode (b : Bool) : List Nat :=
  [if b then 1 else 0]

/-- The 16-bit DPT 9.001 word for exponent `e` and two's-complement 12-bit
mantissa `m`: bit 15 is the mantissa sign, bits 14–11 the exponent, bits
10–0 the low mantissa bits. -/
def dpt9Word (e : Nat) (m : Int) : Nat :=
  ((m % 4096).toNat / 2048) * 32768 + e % 16 * 2048 + (m % 4096).toNat % 2048

/-- Modelled from the spec: the DPT 9.001 telegram for exponent `e` and
mantissa `m`, big-endian byte order. -/
def dpt9Pack (e : Nat) (m : Int) : List Nat :=
  [dpt9Word e m / 256, dpt9Word e m % 256]

/-- The 16-bit word carried by a two-byte telegram. -/
def dpt9WordOf (b1 b2 : Nat) : Nat := b1 % 256 * 256 + b2 % 256

/-- The exponent field of a DPT 9.001 word. -/
def dpt9ExpOf (w : Nat) : Nat := w / 2048 % 16

/-- The two's-complement mantissa of a DPT 9.001 word. -/
def dpt9MantOf (w : Nat) : Int :=
  if 2048 ≤ w / 32768 % 2 * 2048 + w % 2048 then
    (w / 32768 % 2 * 2048 + w % 2048 : Int) - 4096
  else (w / 32768 % 2 * 2048 + w % 2048 : Int)

/-- The rational value of a DPT 9.001 telegram: `0.01 * mantissa * 2^exponent`. -/
def dpt9Val (b1 b2 : Nat) : ℚ :=
  (dpt9MantOf (dpt9WordOf b1 b2) : ℚ) * 2 ^ dpt9ExpOf (dpt9WordOf b1 b2) / 100

/-- Modelled from the spec: DPT 9.001 decode — exactly two bytes,
`LengthMismatch` otherwise, value `0.01 * m * 2^e`. -/
def dpt9Decode (data : List Nat) : Except DecodeError ℚ :=
  match data with
  | [b1, b2] => .ok (dpt9Val b1 b2)
  | _ => .error .lengthMismatch

/-- Largest DPT 9.001 value: mantissa 2047 at exponent 15 (670760.96). -/
def dpt9MaxQ : ℚ := 2047 * 2 ^ 15 / 100

/-- Smallest DPT 9.001 value: mantissa -2048 at exponent 15 (-671088.64). -/
def dpt9MinQ : ℚ := -2048 * 2 ^ 15 / 100

/-- The resolution step of DPT 9.001 at exponent `e`: `0.01 * 2^e`. -/
def dpt9Step (e : Nat) : ℚ := 2 ^ e / 100

/-- Round to the nearest integer, ties away from the floor. -/
def roundNearest (q : ℚ) : Int := ⌊q + 1 / 2⌋

/-- The mantissa obtained for `t` at exponent `e` by nearest rounding. -/
def dpt9Mant (t : ℚ) (e : Nat) : Int := roundNearest (t * 100 / 2 ^ e)

/-- The smallest exponent whose rounded mantissa is representable. -/
def dpt9ExpFor (t : ℚ) : Nat :=
  (((List.range 16).find? fun e =>
    decide (-2048 ≤ dpt9Mant t e ∧ dpt9Mant t e ≤ 2047)).getD 15)

/-- Modelled from the spec: DPT 9.001 encode — the representable value
nearest to the input (finest exponent whose rounded mantissa fits),
saturating at the format's minimum/maximum rather than overflowing. -/
def dpt9Encode (t : ℚ) : List Nat :=
  if dpt9MaxQ ≤ t then dpt9Pack 15 2047
  else if t ≤ dpt9MinQ then dpt9Pack 15 (-2048)
  else dpt9Pack (dpt9ExpFor t) (dpt9Mant t (dpt9ExpFor t))

/-! ## Record types (`records/src/switch.rs`, `records/src/temperature.rs`),
no_std variants as built by the embedded gateway and ground entry points -/

/-- `SwitchState` (DPT 1.001 switch state record). -/
structure SwitchState where
  address : HString16
  is_on : Bool
  timestamp : Nat
deriving DecidableEq, Repr

/-- `SwitchControl` (DPT 1.001 switch command record). -/
structure SwitchControl where
  address : HString16
  is_on : Bool
  timestamp : Nat
deriving DecidableEq, Repr

/-- `Temperature` (DPT 9.001 sensor record); the `f32` Celsius field is
modelled over `ℚ`. -/
structure Temperature where
  address : HString16
  celsius : ℚ
  timestamp : Nat
deriving DecidableEq, Repr

/-- Rust `Display` for `bool`: the literals `true` / `false`. -/
def boolChars (b : Bool) : List Char :=
  if b then "true".toList else "false".toList

/-- The character content produced by the `format!` template of the no_std
`serialize_state` / `serialize_control`:
`\x7b"address":"{}","is_on":{},"timestamp":{}\x7d`. -/
def switchJsonChars (addr : List Char) (is_on : Bool) (ts : Nat) : List Char :=
  "\x7b\"address\":\"".toList ++ addr ++ "\",\"is_on\":".toList ++ boolChars is_on ++
    ",\"timestamp\":".toList ++ natToChars ts ++ "\x7d".toList

/-- `records::switch::serde::serialize_state` (no_std): manual JSON
formatting of a `SwitchState`. -/
def serialize_state (state : SwitchState) : Except String (List Nat) :=
  .ok (utf8Encode (switchJsonChars state.address.chars state.is_on state.timestamp))

/-- `records::switch::serde::serialize_control` (no_std): manual JSON
formatting of a `SwitchControl`. -/
def serialize_control (control : SwitchControl) : Except String (List Nat) :=
  .ok (utf8Encode (switchJsonChars control.address.chars control.is_on control.timestamp))

/-- `pair.split(':')` + key/value extraction: `continue` (None) unless the
split yields exactly two parts; the key is trimmed of whitespace then of
quotes, the value is trimmed of whitespace. -/
def parsePair (pair : List Char) : Option (List Char × List Char) :=
  match splitOnChar ':' pair with
  | [k, v] => some (trimQuotes (trimWs k), trimWs v)
  | _ => none

/-- One iteration of the `for pair in …` loop of the no_std
`deserialize_state` / `deserialize_control`, over the state
`(address, is_on, timestamp)`. -/
def applyPairSwitch (st : HString16 × Bool × Nat) (pair : List Char) :
    HString16 × Bool × Nat :=
  match parsePair pair with
  | none => st
  | some kv =>
    if kv.1 = "address".toList then
      (st.1.pushStrSilent (trimQuotes kv.2), st.2.1, st.2.2)
    else if kv.1 = "is_on".toList then
      (st.1, decide (kv.2 = "true".toList), st.2.2)
    else if kv.1 = "timestamp".toList then
      (st.1, st.2.1, (parseU64 kv.2).getD 0)
    else st

/-- The character-level body shared by the no_std `deserialize_state` and
`deserialize_control` (their loops are textually identical in the source):
strip braces, split on commas, fold the pair handler over the default
field values. -/
def deserializeSwitchFields (chars : List Char) : HString16 × Bool × Nat :=
  (splitOnChar ',' (trimMatchesP isBraceChar chars)).foldl applyPairSwitch
    (HString16.empty, false, 0)

/-- `records::switch::serde::deserialize_state` (no_std): UTF-8 check, then
tolerant manual JSON parsing. -/
def deserialize_state (data : List Nat) : Except String SwitchState :=
  match utf8Decode data with
  | none => .error "Invalid UTF-8"
  | some chars =>
    .ok ⟨(deserializeSwitchFields chars).1, (deserializeSwitchFields chars).2.1,
      (deserializeSwitchFields chars).2.2⟩

/-- `records::switch::serde::deserialize_control` (no_std): identical loop,
producing a `SwitchControl`. -/
def deserialize_control (data : List Nat) : Except String SwitchControl :=
  match utf8Decode data with
  | none => .error "Invalid UTF-8"
  | some chars =>
    .ok ⟨(deserializeSwitchFields chars).1, (deserializeSwitchFields chars).2.1,
      (deserializeSwitchFields chars).2.2⟩

/-- One iteration of the `for pair in …` loop of the no_std temperature
`deserialize`, over the state `(address, celsius, timestamp)`. -/
def applyPairTemp (st : HString16 × ℚ × Nat) (pair : List Char) :
    HString16 × ℚ × Nat :=
  match parsePair pair with
  | none => st
  | some kv =>
    if kv.1 = "address".toList then
      (st.1.pushStrSilent (trimQuotes kv.2), st.2.1, st.2.2)
    else if kv.1 = "celsius".toList then
      (st.1, (parseDecimalQ kv.2).getD 0, st.2.2)
    else if kv.1 = "timestamp".toList then
      (st.1, st.2.1, (parseU64 kv.2).getD 0)
    else st

/-- The character-level body of the no_std temperature `deserialize`. -/
def deserializeTempFields (chars : List Char) : HString16 × ℚ × Nat :=
  (splitOnChar ',' (trimMatchesP isBraceChar chars)).foldl applyPairTemp
    (HString16.empty, 0, 0)

/-- `records::temperature::serde::deserialize` (no_std). -/
def Temperature.deserialize (data : List Nat) : Except String Temperature :=
  match utf8Decode data with
  | none => .error "Invalid UTF-8"
  | some chars =>
    .ok ⟨(deserializeTempFields chars).1, (deserializeTempFields chars).2.1,
      (deserializeTempFields chars).2.2⟩

/-- `records::switch::knx::deserialize_switch_state_from_knx`: DPT 1.001
decode with the error swallowed by `unwrap_or(false)`, then a checked copy
of the group address, timestamp fixed at 0. -/
def deserialize_switch_state_from_knx (data : List Nat) (group_address : List Char) :
    Except String SwitchState :=
  match HString16.empty.pushStr group_address with
  | .error _ => .error "Group address too long"
  | .ok address =>
    .ok ⟨address,
      (match dpt1Decode data with
       | .ok b => b
       | .error _ => false), 0⟩

/-- `records::switch::knx::serialize_switch_control_to_knx`: DPT 1.001
encode of the command's boolean. -/
def serialize_switch_control_to_knx (control : SwitchControl) :
    Except String (List Nat) :=
  .ok (dpt1Encode control.is_on)

/-- `records::temperature::knx::from_knx`: DPT 9.001 decode with the error
swallowed by `unwrap_or(0.0)`, then a checked copy of the group address,
timestamp fixed at 0. -/
def Temperature.from_knx (data : List Nat) (group_address : List Char) :
    Except String Temperature :=
  match HString16.empty.pushStr group_address with
  | .error _ => .error "Group address too long"
  | .ok address =>
    .ok ⟨address,
      (match dpt9Decode data with
       | .ok v => v
       | .error _ => 0), 0⟩

/-! ## The inline closures of `knx-gateway/src/main.rs` -/

/-- The gateway's own `LightState` record (`knx-gateway/src/main.rs`). -/
structure GwLightState where
  group_address : HString16
  is_on : Bool
  timestamp : Nat
deriving DecidableEq, Repr

/-- The inline `with_deserializer` closure of the gateway's `LightState`
registration: DPT 1.001 decode with `unwrap_or(false)`, the fixed group
address `1/0/7` pushed with the result ignored, timestamp 0. -/
def gwLightStateDeserializer (data : List Nat) : Except String GwLightState :=
  .ok ⟨HString16.empty.pushStrSilent "1/0/7".toList,
    (match dpt1Decode data with
     | .ok b => b
     | .error _ => false), 0⟩

/-- The inline `with_serializer` closure of the gateway's `LightState`
registration: manual JSON with the key `group_address`. -/
def gwLightStateSerializer (state : GwLightState) : Except String (List Nat) :=
  .ok (utf8Encode ("\x7b\"group_address\":\"".toList ++ state.group_address.chars ++
    "\",\"is_on\":".toList ++ boolChars state.is_on ++
    ",\"timestamp\":".toList ++ natToChars state.timestamp ++ "\x7d".toList))

/-! ## Derived observations used to state the claims -/

/-- The key a pair contributes to the parse loop, if any. -/
def keyOfPair (p : List Char) : Option (List Char) :=
  (parsePair p).map Prod.fst

/-- The (whitespace-trimmed) value of a pair, if any. -/
def valueOfPair (p : List Char) : Option (List Char) :=
  (parsePair p).map Prod.snd

/-- The key of a pair when it is one the switch parser acts on. -/
def switchKeyOf (p : List Char) : Option (List Char) :=
  match parsePair p with
  | some kv =>
    if kv.1 = "address".toList ∨ kv.1 = "is_on".toList ∨ kv.1 = "timestamp".toList then
      some kv.1
    else none
  | none => none

/-- The key of a pair when it is one the temperature parser acts on. -/
def tempKeyOf (p : List Char) : Option (List Char) :=
  match parsePair p with
  | some kv =>
    if kv.1 = "address".toList ∨ kv.1 = "celsius".toList ∨ kv.1 = "timestamp".toList then
      some kv.1
    else none
  | none => none

/-- Join pair texts with commas, as a textual payload body. -/
def joinPairs : List (List Char) → List Char
  | [] => []
  | [p] => p
  | p :: ps => p ++ ',' :: joinPairs ps

/-- The textual payload whose comma-separated pairs are `ps`. -/
def mkPayload (ps : List (List Char)) : List Char :=
  '{' :: (joinPairs ps ++ ['}'])

/-! ## Character-class facts -/

theorem addrChar_bounds {c : Char} (h : isAddrChar c = true) :
    47 ≤ c.toNat ∧ c.toNat ≤ 57 := by
  simp only [isAddrChar, Bool.or_eq_true, isAsciiDigit, decide_eq_true_eq] at h
  rcases h with h | h
  · omega
  · rw [h]
    constructor <;> decide

theorem addrChar_props {c : Char} (h : isAddrChar c = true) :
    c.toNat < 128 ∧ isBraceChar c = false ∧ rustIsWhitespace c = false ∧
      c ≠ ',' ∧ c ≠ ':' ∧ c ≠ '"' := by
  have hn := addrChar_bounds h
  refine ⟨by omega, ?_, ?_, ?_, ?_, ?_⟩
  · simp only [isBraceChar, Bool.or_eq_false_iff, decide_eq_false_iff_not]
    constructor <;> (intro he; rw [he] at hn; exact absurd hn (by decide))
  · simp only [rustIsWhitespace, decide_eq_false_iff_not]
    omega
  · intro he; rw [he] at hn; exact absurd hn (by decide)
  · intro he; rw [he] at hn; exact absurd hn (by decide)
  · intro he; rw [he] at hn; exact absurd hn (by decide)

theorem digitChar_props {c : Char} (h : isAsciiDigit c = true) :
    c.toNat < 128 ∧ isBraceChar c = false ∧ rustIsWhitespace c = false ∧
      c ≠ ',' ∧ c ≠ ':' ∧ c ≠ '"' :=
  addrChar_props (by simp [isAddrChar, h])

/-! ## Field-preservation lemmas for the tolerant parse loops -/

theorem applyPairSwitch_keep_isOn {st : HString16 × Bool × Nat} {p : List Char}
    (h : keyOfPair p ≠ some ("is_on".toList)) :
    (applyPairSwitch st p).2.1 = st.2.1 := by
  unfold applyPairSwitch
  cases hp : parsePair p with
  | none => rfl
  | some kv =>
    have hk : kv.1 ≠ "is_on".toList := by
      intro he
      exact h (by simp [keyOfPair, hp, he])
    dsimp only
    split_ifs <;> rfl

theorem applyPairSwitch_keep_ts {st : HString16 × Bool × Nat} {p : List Char}
    (h : keyOfPair p ≠ some ("timestamp".toList)) :
    (applyPairSwitch st p).2.2 = st.2.2 := by
  unfold applyPairSwitch
  cases hp : parsePair p with
  | none => rfl
  | some kv =>
    have hk : kv.1 ≠ "timestamp".toList := by
      intro he
      exact h (by simp [keyOfPair, hp, he])
    dsimp only
    split_ifs <;> rfl

theorem applyPairSwitch_keep_addr {st : HString16 × Bool × Nat} {p : List Char}
    (h : keyOfPair p = some ("address".toList) →
      16 < utf8Len (trimQuotes ((valueOfPair p).getD []))) :
    (applyPairSwitch st p).1 = st.1 := by
  unfold applyPairSwitch
  cases hp : parsePair p with
  | none => rfl
  | some kv =>
    by_cases h1 : kv.1 = "address".toList
    · have hover : 16 < utf8Len (trimQuotes kv.2) := by
        have := h (by simp [keyOfPair, hp, h1])
        simpa [valueOfPair, hp] using this

      have hfail : HString16.pushStrSilent st.1 (trimQuotes kv.2) = st.1 := by
        unfold HString16.pushStrSilent HString16.pushStr
        rw [if_neg (by omega)]
      dsimp only
      rw [if_pos h1]
      exact congrArg (fun a => (a, st.2.1, st.2.2).1) hfail
    · dsimp only
      split_ifs <;> rfl

theorem applyPairTemp_keep_celsius {st : HString16 × ℚ × Nat} {p : List Char}
    (h : keyOfPair p ≠ some ("celsius".toList)) :
    (applyPairTemp st p).2.1 = st.2.1 := by
  unfold applyPairTemp
  cases hp : parsePair p with
  | none => rfl
  | some kv =>
    have hk : kv.1 ≠ "celsius".toList := by
      intro he
      exact h (by simp [keyOfPair, hp, he])
    dsimp only
    split_ifs <;> rfl

theorem applyPairTemp_keep_addr {st : HString16 × ℚ × Nat} {p : List Char}
    (h : keyOfPair p = some ("address".toList) →
      16 < utf8Len (trimQuotes ((valueOfPair p).getD []))) :
    (applyPairTemp st p).1 = st.1 := by
  unfold applyPairTemp
  cases hp : parsePair p with
  | none => rfl
  | some kv =>
    by_cases h1 : kv.1 = "address".toList
    · have hover : 16 < utf8Len (trimQuotes kv.2) := by
        have := h (by simp [keyOfPair, hp, h1])
        simpa [valueOfPair, hp] using this
      have hfail : HString16.pushStrSilent st.1 (trimQuotes kv.2) = st.1 := by
        unfold HString16.pushStrSilent HString16.pushStr
        rw [if_neg (by omega)]
      dsimp only
      rw [if_pos h1]
      exact congrArg (fun a => (a, st.2.1, st.2.2).1) hfail
    · dsimp only
      split_ifs <;> rfl

theorem foldl_switch_keep_isOn (prs : List (List Char)) :
    ∀ st, (∀ p ∈ prs, keyOfPair p ≠ some ("is_on".toList)) →
      (prs.foldl applyPairSwitch st).2.1 = st.2.1 := by
  induction prs with
  | nil => intro st _; rfl
  | cons p ps ih =>
    intro st h
    rw [List.foldl_cons, ih _ (fun q hq => h q (by simp [hq]))]
    exact applyPairSwitch_keep_isOn (h p (by simp))

theorem foldl_switch_keep_ts (prs : List (List Char)) :
    ∀ st, (∀ p ∈ prs, keyOfPair p ≠ some ("timestamp".toList)) →
      (prs.foldl applyPairSwitch st).2.2 = st.2.2 := by
  induction prs with
  | nil => intro st _; rfl
  | cons p ps ih =>
    intro st h
    rw [List.foldl_cons, ih _ (fun q hq => h q (by simp [hq]))]
    exact applyPairSwitch_keep_ts (h p (by simp))

theorem foldl_switch_keep_addr (prs : List (List Char)) :
    ∀ st, (∀ p ∈ prs, keyOfPair p = some ("address".toList) →
        16 < utf8Len (trimQuotes ((valueOfPair p).getD []))) →
      (prs.foldl applyPairSwitch st).1 = st.1 := by
  induction prs with
  | nil => intro st _; rfl
  | cons p ps ih =>
    intro st h
    rw [List.foldl_cons, ih _ (fun q hq => h q (by simp [hq]))]
    exact applyPairSwitch_keep_addr (h p (by simp))

theorem foldl_temp_keep_celsius (prs : List (List Char)) :
    ∀ st, (∀ p ∈ prs, keyOfPair p ≠ some ("celsius".toList)) →
      (prs.foldl applyPairTemp st).2.1 = st.2.1 := by
  induction prs with
  | nil => intro st _; rfl
  | cons p ps ih =>
    intro st h
    rw [List.foldl_cons, ih _ (fun q hq => h q (by simp [hq]))]
    exact applyPairTemp_keep_celsius (h p (by simp))

theorem foldl_temp_keep_addr (prs : List (List Char)) :
    ∀ st, (∀ p ∈ prs, keyOfPair p = some ("address".toList) →
        16 < utf8Len (trimQuotes ((valueOfPair p).getD []))) →
      (prs.foldl applyPairTemp st).1 = st.1 := by
  induction prs with
  | nil => intro st _; rfl
  | cons p ps ih =>
    intro st h
    rw [List.foldl_cons, ih _ (fun q hq => h q (by simp [hq]))]
    exact applyPairTemp_keep_addr (h p (by simp))

/-! ## C1 — wrong-length bus payloads -/

/-- C1: on a 3-byte payload for the 1-byte boolean datapoint, the modelled
DPT layer itself fails with `LengthMismatch`, but
`deserialize_switch_state_from_knx`, the gateway's inline `LightState`
deserializer and `Temperature.from_knx` all swallow that error through
`unwrap_or` and return `Ok` with a fresh default primary value (`false`,
resp. `0.0`) — they do not return the decode error and do not leave the
stored value untouched, contradicting the claim. -/
theorem knx_wrong_length_swallowed :
    dpt1Decode [1, 1, 1] = .error .lengthMismatch ∧
    dpt9Decode [1, 1, 1] = .error .lengthMismatch ∧
    deserialize_switch_state_from_knx [1, 1, 1] "1/0/7".toList =
      .ok ⟨⟨"1/0/7".toList⟩, false, 0⟩ ∧
    gwLightStateDeserializer [1, 1, 1] = .ok ⟨⟨"1/0/7".toList⟩, false, 0⟩ ∧
    Temperature.from_knx [1, 1, 1] "9/1/0".toList = .ok ⟨⟨"9/1/0".toList⟩, 0, 0⟩ := by
  refine ⟨by decide, by decide, by decide, by decide, by decide⟩

/-! ## C4 — gateway inline serializer vs. records serializer -/

/-- C4 counterexample: on the very switch state of the spec's end-to-end
scenario (`address "1/0/7"`, `is_on true`), the gateway's inline MQTT
serializer and `records::switch::serde::serialize_state` produce different
JSON bytes. -/
theorem gateway_serializer_differs :
    gwLightStateSerializer ⟨⟨"1/0/7".toList⟩, true, 0⟩ ≠
      serialize_state ⟨⟨"1/0/7".toList⟩, true, 0⟩ := by
  decide

/-- C4 amended: for every address text, flag and timestamp, the two
serializers produce JSON bytes that agree except for the name of the
address key — the gateway emits `"group_address"` where the records crate
emits `"address"`; the address value, `is_on` and `timestamp` renderings
are byte-identical. -/
theorem gateway_records_serializer_key_difference (a : List Char) (b : Bool) (t : Nat) :
    gwLightStateSerializer ⟨⟨a⟩, b, t⟩ =
      .ok (utf8Encode ("\x7b\"group_address\":\"".toList ++ a ++ "\",\"is_on\":".toList ++
        boolChars b ++ ",\"timestamp\":".toList ++ natToChars t ++ "\x7d".toList)) ∧
    serialize_state ⟨⟨a⟩, b, t⟩ =
      .ok (utf8Encode ("\x7b\"address\":\"".toList ++ a ++ "\",\"is_on\":".toList ++
        boolChars b ++ ",\"timestamp\":".toList ++ natToChars t ++ "\x7d".toList)) :=
  ⟨rfl, rfl⟩

/-! ## C5 — textual decoders are total and never panic -/

/-- C5: on every input byte list, each textual deserializer terminates and
yields a `Result` value — either `Ok` of a decoded record (malformed pairs
skipped, non-numeric number fields defaulted) or the `Invalid UTF-8`
error; no input leads to a panic, which in this embedding would be a
missing case. -/
theorem textual_decode_total (data : List Nat) :
    ((∃ s, deserialize_state data = .ok s) ∨
      deserialize_state data = .error "Invalid UTF-8") ∧
    ((∃ c, deserialize_control data = .ok c) ∨
      deserialize_control data = .error "Invalid UTF-8") ∧
    ((∃ t, Temperature.deserialize data = .ok t) ∨
      Temperature.deserialize data = .error "Invalid UTF-8") := by
  refine ⟨?_, ?_, ?_⟩
  · cases h : utf8Decode data with
    | none => exact Or.inr (by simp [deserialize_state, h])
    | some chars =>
      exact Or.inl ⟨⟨(deserializeSwitchFields chars).1, (deserializeSwitchFields chars).2.1,
        (deserializeSwitchFields chars).2.2⟩, by simp [deserialize_state, h]⟩
  · cases h : utf8Decode data with
    | none => exact Or.inr (by simp [deserialize_control, h])
    | some chars =>
      exact Or.inl ⟨⟨(deserializeSwitchFields chars).1, (deserializeSwitchFields chars).2.1,
        (deserializeSwitchFields chars).2.2⟩, by simp [deserialize_control, h]⟩
  · cases h : utf8Decode data with
    | none => exact Or.inr (by simp [Temperature.deserialize, h])
    | some chars =>
      exact Or.inl ⟨⟨(deserializeTempFields chars).1, (deserializeTempFields chars).2.1,
        (deserializeTempFields chars).2.2⟩, by simp [Temperature.deserialize, h]⟩

/-! ## C9 — KNX-path decoders zero the timestamp -/

/-- C9: every record successfully produced by the KNX-path decoders — the
two records-crate functions and the gateway's inline `LightState`
deserializer — carries timestamp 0. -/
theorem knx_decode_timestamp_zero :
    (∀ data ga s, deserialize_switch_state_from_knx data ga = .ok s →
      s.timestamp = 0) ∧
    (∀ data ga t, Temperature.from_knx data ga = .ok t → t.timestamp = 0) ∧
    (∀ data s, gwLightStateDeserializer data = .ok s → s.timestamp = 0) := by
  refine ⟨?_, ?_, ?_⟩
  · intro data ga s h
    unfold deserialize_switch_state_from_knx at h
    cases hp : HString16.empty.pushStr ga with
    | error e => rw [hp] at h; cases h
    | ok address => rw [hp] at h; cases h; rfl
  · intro data ga t h
    unfold Temperature.from_knx at h
    cases hp : HString16.empty.pushStr ga with
    | error e => rw [hp] at h; cases h
    | ok address => rw [hp] at h; cases h; rfl
  · intro data s h
    unfold gwLightStateDeserializer at h
    cases h
    rfl

/-- C9 witness: the theorem applied to the concrete 1-byte telegram `0x01`
on group address `1/0/7`. -/
theorem knx_decode_timestamp_zero_witness :
    (⟨⟨"1/0/7".toList⟩, true, 0⟩ : SwitchState).timestamp = 0 :=
  knx_decode_timestamp_zero.1 [1] "1/0/7".toList ⟨⟨"1/0/7".toList⟩, true, 0⟩ (by decide)

/-! ## C2 — missing optional keys default instead of failing -/

/-- C2: in the tolerant textual decode, a pair list containing no pair for a
given key leaves that field at its documented zero value — `false` for
`is_on`, `0` for `timestamp`, the empty address, and `0` for the
temperature's `celsius` — and in particular the payload
`\x7b"address":"1/0/7"\x7d` decodes to address `1/0/7`, `is_on = false`,
`timestamp = 0` rather than failing. -/
theorem tolerant_decode_missing_key_defaults :
    (∀ chars : List Char,
      ((∀ p ∈ splitOnChar ',' (trimMatchesP isBraceChar chars),
          keyOfPair p ≠ some ("is_on".toList)) →
        (deserializeSwitchFields chars).2.1 = false) ∧
      ((∀ p ∈ splitOnChar ',' (trimMatchesP isBraceChar chars),
          keyOfPair p ≠ some ("timestamp".toList)) →
        (deserializeSwitchFields chars).2.2 = 0) ∧
      ((∀ p ∈ splitOnChar ',' (trimMatchesP isBraceChar chars),
          keyOfPair p ≠ some ("address".toList)) →
        (deserializeSwitchFields chars).1 = HString16.empty) ∧
      ((∀ p ∈ splitOnChar ',' (trimMatchesP isBraceChar chars),
          keyOfPair p ≠ some ("celsius".toList)) →
        (deserializeTempFields chars).2.1 = 0)) ∧
    deserialize_state (utf8Encode "\x7b\"address\":\"1/0/7\"\x7d".toList) =
      .ok ⟨⟨"1/0/7".toList⟩, false, 0⟩ := by
  refine ⟨fun chars => ⟨?_, ?_, ?_, ?_⟩, by decide⟩
  · intro h
    exact foldl_switch_keep_isOn _ _ h
  · intro h
    exact foldl_switch_keep_ts _ _ h
  · intro h
    exact foldl_switch_keep_addr _ _ (fun p hp hk => absurd hk (h p hp))
  · intro h
    exact foldl_temp_keep_celsius _ _ h

/-- C2 witness: the theorem applied to the concrete pair text
`"address":"1/0/7"`, whose pair list has no `is_on` pair, and to the
concrete one-key payload. -/
theorem tolerant_decode_missing_key_defaults_witness :
    (deserializeSwitchFields "\"address\":\"1/0/7\"".toList).2.1 = false ∧
    deserialize_state (utf8Encode "\x7b\"address\":\"1/0/7\"\x7d".toList) =
      .ok ⟨⟨"1/0/7".toList⟩, false, 0⟩ :=
  ⟨(tolerant_decode_missing_key_defaults.1 "\"address\":\"1/0/7\"".toList).1 (by decide),
    tolerant_decode_missing_key_defaults.2⟩

/-! ## C7 — boolean bus-codec round-trip -/

/-- C7: the DPT 1.001 decode of the DPT 1.001 encode returns the original
boolean, and for every `SwitchControl` whose group address fits the 16-byte
field, encoding with `serialize_switch_control_to_knx` and decoding the
telegram with `deserialize_switch_state_from_knx` yields a state with the
command's `is_on`. -/
theorem knx_bool_roundtrip (c : SwitchControl) (h : utf8Len c.address.chars ≤ 16) :
    (∀ b : Bool, dpt1Decode (dpt1Encode b) = .ok b) ∧
    ∃ bytes s, serialize_switch_control_to_knx c = .ok bytes ∧
      deserialize_switch_state_from_knx bytes c.address.chars = .ok s ∧
      s.is_on = c.is_on := by
  constructor
  · intro b
    cases b <;> decide
  · refine ⟨dpt1Encode c.is_on, ⟨⟨c.address.chars⟩, c.is_on, 0⟩, rfl, ?_, rfl⟩
    unfold deserialize_switch_state_from_knx
    have hpush : HString16.empty.pushStr c.address.chars = .ok ⟨c.address.chars⟩ := by
      unfold HString16.pushStr HString16.empty
      rw [if_pos (by simpa [utf8Len, utf8Encode] using h)]
      rfl
    rw [hpush]
    have hdec : (match dpt1Decode (dpt1Encode c.is_on) with
        | .ok b => b
        | .error _ => false) = c.is_on := by
      cases hc : c.is_on <;> rfl
    rw [hdec]

/-- C7 witness: the round-trip at the concrete command
`\x7b address "1/0/6", on \x7d`. -/
theorem knx_bool_roundtrip_witness :
    (∀ b : Bool, dpt1Decode (dpt1Encode b) = .ok b) ∧
    ∃ bytes s,
      serialize_switch_control_to_knx ⟨⟨"1/0/6".toList⟩, true, 0⟩ = .ok bytes ∧
      deserialize_switch_state_from_knx bytes "1/0/6".toList = .ok s ∧
      s.is_on = (⟨⟨"1/0/6".toList⟩, true, 0⟩ : SwitchControl).is_on :=
  knx_bool_roundtrip ⟨⟨"1/0/6".toList⟩, true, 0⟩ (by decide)

/-! ## C10 — overlong textual addresses are silently dropped -/

/-- C10: when every `address` pair of a textual payload carries a value
longer than the 16-byte capacity, the textual decoders still return `Ok`
with the address field left empty (the failed `push_str` is ignored),
whereas the KNX-path decoders reject an overlong group address with an
error. -/
theorem overlong_address_dropped (data : List Nat) (chars ga : List Char)
    (hdec : utf8Decode data = some chars)
    (hover : ∀ p ∈ splitOnChar ',' (trimMatchesP isBraceChar chars),
      keyOfPair p = some ("address".toList) →
        16 < utf8Len (trimQuotes ((valueOfPair p).getD [])))
    (hga : 16 < utf8Len ga) :
    (∃ s, deserialize_state data = .ok s ∧ s.address = HString16.empty) ∧
    (∃ c, deserialize_control data = .ok c ∧ c.address = HString16.empty) ∧
    (∃ t, Temperature.deserialize data = .ok t ∧ t.address = HString16.empty) ∧
    deserialize_switch_state_from_knx data ga = .error "Group address too long" ∧
    Temperature.from_knx data ga = .error "Group address too long" := by
  have haddrS : (deserializeSwitchFields chars).1 = HString16.empty :=
    foldl_switch_keep_addr _ _ hover
  have haddrT : (deserializeTempFields chars).1 = HString16.empty :=
    foldl_temp_keep_addr _ _ hover
  have hpush : HString16.empty.pushStr ga = .error () := by
    unfold HString16.pushStr
    have h0 : utf8Len HString16.empty.chars = 0 := rfl
    rw [if_neg (by rw [h0]; omega)]
  refine ⟨⟨⟨(deserializeSwitchFields chars).1, (deserializeSwitchFields chars).2.1,
      (deserializeSwitchFields chars).2.2⟩, by simp [deserialize_state, hdec], haddrS⟩,
    ⟨⟨(deserializeSwitchFields chars).1, (deserializeSwitchFields chars).2.1,
      (deserializeSwitchFields chars).2.2⟩, by simp [deserialize_control, hdec], haddrS⟩,
    ⟨⟨(deserializeTempFields chars).1, (deserializeTempFields chars).2.1,
      (deserializeTempFields chars).2.2⟩, by simp [Temperature.deserialize, hdec], haddrT⟩,
    ?_, ?_⟩
  · unfold deserialize_switch_state_from_knx
    rw [hpush]
  · unfold Temperature.from_knx
    rw [hpush]

/-- C10 witness: a payload whose address value has 17 bytes decodes to the
empty address, while the KNX decoder rejects the same 17-byte group
address. -/
theorem overlong_address_dropped_witness :
    (∃ s, deserialize_state
        (utf8Encode "\x7b\"address\":\"12345678901234567\"\x7d".toList) = .ok s ∧
      s.address = HString16.empty) ∧
    (∃ c, deserialize_control
        (utf8Encode "\x7b\"address\":\"12345678901234567\"\x7d".toList) = .ok c ∧
      c.address = HString16.empty) ∧
    (∃ t, Temperature.deserialize
        (utf8Encode "\x7b\"address\":\"12345678901234567\"\x7d".toList) = .ok t ∧
      t.address = HString16.empty) ∧
    deserialize_switch_state_from_knx
      (utf8Encode "\x7b\"address\":\"12345678901234567\"\x7d".toList)
      "12345678901234567".toList = .error "Group address too long" ∧
    Temperature.from_knx
      (utf8Encode "\x7b\"address\":\"12345678901234567\"\x7d".toList)
      "12345678901234567".toList = .error "Group address too long" :=
  overlong_address_dropped _ "\x7b\"address\":\"12345678901234567\"\x7d".toList
    "12345678901234567".toList (by decide) (by decide) (by decide)

/-! ## C3 — textual round-trip -/

/-- Characters that can pass untouched through every trimming and splitting
step of the tolerant parser. -/
abbrev tameChar (c : Char) : Prop :=
  c.toNat < 128 ∧ isBraceChar c = false ∧ rustIsWhitespace c = false ∧
    c ≠ ',' ∧ c ≠ ':' ∧ c ≠ '"'

theorem addrChar_tame {c : Char} (h : isAddrChar c = true) : tameChar c :=
  addrChar_props h

theorem boolChars_tame (b : Bool) : ∀ c ∈ boolChars b, tameChar c := by
  cases b <;> decide

theorem natToChars_tame (t : Nat) : ∀ c ∈ natToChars t, tameChar c :=
  fun c hc => digitChar_props (natToChars_all_digits t c hc)

theorem parsePair_eval (K V : List Char)
    (hK : ∀ c ∈ K, c ≠ ':') (hV : ∀ c ∈ V, c ≠ ':') :
    parsePair (K ++ ':' :: V) = some (trimQuotes (trimWs K), trimWs V) := by
  unfold parsePair
  rw [splitOnChar_append ':' K V hK, splitOnChar_of_not_mem ':' V hV]

theorem applyPairSwitch_address_eval (b0 : Bool) (t0 : Nat) (A : List Char)
    (hA : ∀ c ∈ A, isAddrChar c = true) (hlen : A.length ≤ 16) :
    applyPairSwitch (HString16.empty, b0, t0)
      ("\"address\"".toList ++ ':' :: ('"' :: (A ++ ['"']))) =
      (⟨A⟩, b0, t0) := by
  have hKcolon : ∀ c ∈ ("\"address\"".toList : List Char), c ≠ ':' := by decide
  have hVcolon : ∀ c ∈ ('"' :: (A ++ ['"'])), c ≠ ':' := by
    intro c hc
    simp only [List.mem_cons, List.mem_append, List.mem_singleton, List.not_mem_nil, or_false] at hc
    rcases hc with h | h | h
    · rw [h]; decide
    · exact (addrChar_tame (hA c h)).2.2.2.2.1
    · rw [h]; decide
  have hVws : trimWs ('"' :: (A ++ ['"'])) = '"' :: (A ++ ['"']) := by
    apply trimMatchesP_of_all_false
    intro c hc
    simp only [List.mem_cons, List.mem_append, List.mem_singleton, List.not_mem_nil, or_false] at hc
    rcases hc with h | h | h
    · rw [h]; decide
    · exact (addrChar_tame (hA c h)).2.2.1
    · rw [h]; decide
  have hVquotes : trimQuotes ('"' :: (A ++ ['"'])) = A := by
    apply trimMatchesP_wrap (by decide) (by decide)
    intro c hc
    exact decide_eq_false ((addrChar_tame (hA c hc)).2.2.2.2.2)
  have hparse := parsePair_eval "\"address\"".toList ('"' :: (A ++ ['"'])) hKcolon hVcolon
  rw [hVws] at hparse
  have hkey : trimQuotes (trimWs ("\"address\"".toList)) = "address".toList := by decide
  rw [hkey] at hparse
  unfold applyPairSwitch
  rw [hparse]
  dsimp only
  rw [if_pos rfl, hVquotes]
  have hpush : HString16.empty.pushStrSilent A = ⟨A⟩ := by
    unfold HString16.pushStrSilent HString16.pushStr
    have hlenA : utf8Len A = A.length :=
      utf8Len_ascii (fun c hc => (addrChar_tame (hA c hc)).1)
    have h0 : utf8Len HString16.empty.chars = 0 := rfl
    rw [if_pos (by rw [h0, hlenA]; omega)]
    rfl
  rw [hpush]

theorem applyPairSwitch_isOn_eval (a0 : HString16) (t0 : Nat) (b : Bool) :
    applyPairSwitch (a0, false, t0) ("\"is_on\"".toList ++ ':' :: boolChars b) =
      (a0, b, t0) := by
  have hKcolon : ∀ c ∈ ("\"is_on\"".toList : List Char), c ≠ ':' := by decide
  have hVcolon : ∀ c ∈ boolChars b, c ≠ ':' :=
    fun c hc => (boolChars_tame b c hc).2.2.2.2.1
  have hVws : trimWs (boolChars b) = boolChars b :=
    trimMatchesP_of_all_false (fun c hc => (boolChars_tame b c hc).2.2.1)
  have hparse := parsePair_eval "\"is_on\"".toList (boolChars b) hKcolon hVcolon
  rw [hVws] at hparse
  have hkey : trimQuotes (trimWs ("\"is_on\"".toList)) = "is_on".toList := by decide
  rw [hkey] at hparse
  unfold applyPairSwitch
  rw [hparse]
  dsimp only
  rw [if_neg (by decide), if_pos rfl]
  have hval : decide (boolChars b = "true".toList) = b := by cases b <;> decide
  rw [hval]

theorem applyPairSwitch_ts_eval (a0 : HString16) (b0 : Bool) (t : Nat)
    (ht : t < 2 ^ 64) :
    applyPairSwitch (a0, b0, 0) ("\"timestamp\"".toList ++ ':' :: natToChars t) =
      (a0, b0, t) := by
  have hKcolon : ∀ c ∈ ("\"timestamp\"".toList : List Char), c ≠ ':' := by decide
  have hVcolon : ∀ c ∈ natToChars t, c ≠ ':' :=
    fun c hc => (natToChars_tame t c hc).2.2.2.2.1
  have hVws : trimWs (natToChars t) = natToChars t :=
    trimMatchesP_of_all_false (fun c hc => (natToChars_tame t c hc).2.2.1)
  have hparse := parsePair_eval "\"timestamp\"".toList (natToChars t) hKcolon hVcolon
  rw [hVws] at hparse
  have hkey : trimQuotes (trimWs ("\"timestamp\"".toList)) = "timestamp".toList := by decide
  rw [hkey] at hparse
  unfold applyPairSwitch
  rw [hparse]
  dsimp only
  rw [if_neg (by decide), if_neg (by decide), if_pos rfl, parseU64_natToChars ht]
  rfl

theorem switchJsonChars_decomp (A : List Char) (b : Bool) (t : Nat) :
    switchJsonChars A b t =
      '{' :: ((("\"address\"".toList ++ ':' :: ('"' :: (A ++ ['"']))) ++
        ',' :: (("\"is_on\"".toList ++ ':' :: boolChars b) ++
          ',' :: ("\"timestamp\"".toList ++ ':' :: natToChars t))) ++ ['}']) := by
  simp [switchJsonChars, List.append_assoc]

theorem deserializeSwitchFields_round (A : List Char) (b : Bool) (t : Nat)
    (hA : ∀ c ∈ A, isAddrChar c = true) (hlen : A.length ≤ 16) (ht : t < 2 ^ 64) :
    deserializeSwitchFields (switchJsonChars A b t) = (⟨A⟩, b, t) := by
  have hP1 : ∀ c ∈ ("\"address\"".toList ++ ':' :: ('"' :: (A ++ ['"']))),
      isBraceChar c = false ∧ c ≠ ',' := by
    intro c hc
    simp only [List.mem_append, List.mem_cons, List.mem_singleton, List.not_mem_nil,
      or_false] at hc
    rcases hc with h | h | h | h | h
    · revert h; revert c; decide
    · rw [h]; constructor <;> decide
    · rw [h]; constructor <;> decide
    · exact ⟨(addrChar_tame (hA c h)).2.1, (addrChar_tame (hA c h)).2.2.2.1⟩
    · rw [h]; constructor <;> decide
  have hP2 : ∀ c ∈ ("\"is_on\"".toList ++ ':' :: boolChars b),
      isBraceChar c = false ∧ c ≠ ',' := by
    intro c hc
    simp only [List.mem_append, List.mem_cons] at hc
    rcases hc with h | h | h
    · revert h; revert c; decide
    · rw [h]; constructor <;> decide
    · exact ⟨(boolChars_tame b c h).2.1, (boolChars_tame b c h).2.2.2.1⟩
  have hP3 : ∀ c ∈ ("\"timestamp\"".toList ++ ':' :: natToChars t),
      isBraceChar c = false ∧ c ≠ ',' := by
    intro c hc
    simp only [List.mem_append, List.mem_cons] at hc
    rcases hc with h | h | h
    · revert h; revert c; decide
    · rw [h]; constructor <;> decide
    · exact ⟨(natToChars_tame t c h).2.1, (natToChars_tame t c h).2.2.2.1⟩
  rw [deserializeSwitchFields, switchJsonChars_decomp]
  rw [trimMatchesP_wrap (by decide) (by decide) ?hbraces]
  case hbraces =>
    intro c hc
    rcases List.mem_append.mp hc with h | h
    · exact (hP1 c h).1
    · rcases List.mem_cons.mp h with h | h
      · rw [h]; decide
      · rcases List.mem_append.mp h with h | h
        · exact (hP2 c h).1
        · rcases List.mem_cons.mp h with h | h
          · rw [h]; decide
          · exact (hP3 c h).1
  rw [splitOnChar_append ',' _ _ (fun c hc => (hP1 c hc).2)]
  rw [splitOnChar_append ',' _ _ (fun c hc => (hP2 c hc).2)]
  rw [splitOnChar_of_not_mem ',' _ (fun c hc => (hP3 c hc).2)]
  rw [List.foldl_cons, List.foldl_cons, List.foldl_cons, List.foldl_nil]
  rw [applyPairSwitch_address_eval false 0 A hA hlen]
  rw [applyPairSwitch_isOn_eval ⟨A⟩ 0 b]
  rw [applyPairSwitch_ts_eval ⟨A⟩ b t ht]

theorem switchJsonChars_ascii (A : List Char) (b : Bool) (t : Nat)
    (hA : ∀ c ∈ A, isAddrChar c = true) :
    ∀ c ∈ switchJsonChars A b t, c.toNat < 128 := by
  have lit1 : ∀ x ∈ ("\"address\"".toList : List Char), x.toNat < 128 := by decide
  have lit2 : ∀ x ∈ ("\"is_on\"".toList : List Char), x.toNat < 128 := by decide
  have lit3 : ∀ x ∈ ("\"timestamp\"".toList : List Char), x.toNat < 128 := by decide
  have litq : ∀ x ∈ (['\"'] : List Char), x.toNat < 128 := by decide
  intro c hc
  rw [switchJsonChars_decomp] at hc
  rcases List.mem_cons.mp hc with h | h
  · rw [h]; decide
  · rcases List.mem_append.mp h with h | h
    · rcases List.mem_append.mp h with h | h
      · rcases List.mem_append.mp h with h | h
        · exact lit1 c h
        · rcases List.mem_cons.mp h with h | h
          · rw [h]; decide
          · rcases List.mem_cons.mp h with h | h
            · rw [h]; decide
            · rcases List.mem_append.mp h with h | h
              · exact (addrChar_tame (hA c h)).1
              · exact litq c h
      · rcases List.mem_cons.mp h with h | h
        · rw [h]; decide
        · rcases List.mem_append.mp h with h | h
          · rcases List.mem_append.mp h with h | h
            · exact lit2 c h
            · rcases List.mem_cons.mp h with h | h
              · rw [h]; decide
              · exact (boolChars_tame b c h).1
          · rcases List.mem_cons.mp h with h | h
            · rw [h]; decide
            · rcases List.mem_append.mp h with h | h
              · exact lit3 c h
              · rcases List.mem_cons.mp h with h | h
                · rw [h]; decide
                · exact (natToChars_tame t c h).1
    · rcases List.mem_singleton.mp h with h
      rw [h]; decide

/-- C3: textual round-trip — for every `SwitchState` and `SwitchControl`
whose address consists of digits and slashes and fits the 16-byte field
(and whose timestamp fits `u64`, as the Rust field type guarantees),
serializing and then tolerantly deserializing returns the original record,
all fields included. -/
theorem textual_roundtrip (s : SwitchState) (c : SwitchControl)
    (hs1 : ∀ ch ∈ s.address.chars, isAddrChar ch = true)
    (hs2 : s.address.chars.length ≤ 16) (hs3 : s.timestamp < 2 ^ 64)
    (hc1 : ∀ ch ∈ c.address.chars, isAddrChar ch = true)
    (hc2 : c.address.chars.length ≤ 16) (hc3 : c.timestamp < 2 ^ 64) :
    (∃ bytes, serialize_state s = .ok bytes ∧ deserialize_state bytes = .ok s) ∧
    (∃ bytes, serialize_control c = .ok bytes ∧ deserialize_control bytes = .ok c) := by
  constructor
  · refine ⟨_, rfl, ?_⟩
    unfold deserialize_state
    rw [utf8Decode_encode_ascii (switchJsonChars_ascii _ s.is_on _ hs1)]
    dsimp only
    rw [deserializeSwitchFields_round s.address.chars s.is_on s.timestamp hs1 hs2 hs3]
  · refine ⟨_, rfl, ?_⟩
    unfold deserialize_control
    rw [utf8Decode_encode_ascii (switchJsonChars_ascii _ c.is_on _ hc1)]
    dsimp only
    rw [deserializeSwitchFields_round c.address.chars c.is_on c.timestamp hc1 hc2 hc3]

/-- C3 witness: the round-trip at the concrete state and command of the
spec's end-to-end scenario. -/
theorem textual_roundtrip_witness :
    (∃ bytes, serialize_state ⟨⟨"1/0/7".toList⟩, true, 42⟩ = .ok bytes ∧
      deserialize_state bytes = .ok ⟨⟨"1/0/7".toList⟩, true, 42⟩) ∧
    (∃ bytes, serialize_control ⟨⟨"1/0/6".toList⟩, false, 7⟩ = .ok bytes ∧
      deserialize_control bytes = .ok ⟨⟨"1/0/6".toList⟩, false, 7⟩) :=
  textual_roundtrip ⟨⟨"1/0/7".toList⟩, true, 42⟩ ⟨⟨"1/0/6".toList⟩, false, 7⟩
    (by decide) (by decide) (by decide) (by decide) (by decide) (by decide)

/-! ## C6 — order independence machinery -/

/-- The address-field update a pair performs (shared by both parsers). -/
def updAddr (p : List Char) (a : HString16) : HString16 :=
  match parsePair p with
  | some kv => if kv.1 = "address".toList then a.pushStrSilent (trimQuotes kv.2) else a
  | none => a

/-- The `is_on`-field update a pair performs. -/
def updIsOn (p : List Char) (b : Bool) : Bool :=
  match parsePair p with
  | some kv => if kv.1 = "is_on".toList then decide (kv.2 = "true".toList) else b
  | none => b

/-- The timestamp-field update a pair performs (shared by both parsers). -/
def updTs (p : List Char) (t : Nat) : Nat :=
  match parsePair p with
  | some kv => if kv.1 = "timestamp".toList then (parseU64 kv.2).getD 0 else t
  | none => t

/-- The `celsius`-field update a pair performs. -/
def updCelsius (p : List Char) (q : ℚ) : ℚ :=
  match parsePair p with
  | some kv => if kv.1 = "celsius".toList then (parseDecimalQ kv.2).getD 0 else q
  | none => q

theorem applyPairSwitch_eq (st : HString16 × Bool × Nat) (p : List Char) :
    applyPairSwitch st p = (updAddr p st.1, updIsOn p st.2.1, updTs p st.2.2) := by
  unfold applyPairSwitch updAddr updIsOn updTs
  cases hp : parsePair p with
  | none => rfl
  | some kv =>
    dsimp only
    by_cases h1 : kv.1 = "address".toList
    · have n2 : kv.1 ≠ "is_on".toList := by rw [h1]; decide
      have n3 : kv.1 ≠ "timestamp".toList := by rw [h1]; decide
      rw [if_pos h1, if_pos h1, if_neg n2, if_neg n3]
    · by_cases h2 : kv.1 = "is_on".toList
      · have n3 : kv.1 ≠ "timestamp".toList := by rw [h2]; decide
        rw [if_neg h1, if_pos h2, if_neg h1, if_pos h2, if_neg n3]
      · by_cases h3 : kv.1 = "timestamp".toList
        · rw [if_neg h1, if_neg h2, if_pos h3, if_neg h1, if_neg h2, if_pos h3]
        · rw [if_neg h1, if_neg h2, if_neg h3, if_neg h1, if_neg h2, if_neg h3]

theorem applyPairTemp_eq (st : HString16 × ℚ × Nat) (p : List Char) :
    applyPairTemp st p = (updAddr p st.1, updCelsius p st.2.1, updTs p st.2.2) := by
  unfold applyPairTemp updAddr updCelsius updTs
  cases hp : parsePair p with
  | none => rfl
  | some kv =>
    dsimp only
    by_cases h1 : kv.1 = "address".toList
    · have n2 : kv.1 ≠ "celsius".toList := by rw [h1]; decide
      have n3 : kv.1 ≠ "timestamp".toList := by rw [h1]; decide
      rw [if_pos h1, if_pos h1, if_neg n2, if_neg n3]
    · by_cases h2 : kv.1 = "celsius".toList
      · have n3 : kv.1 ≠ "timestamp".toList := by rw [h2]; decide
        rw [if_neg h1, if_pos h2, if_neg h1, if_pos h2, if_neg n3]
      · by_cases h3 : kv.1 = "timestamp".toList
        · rw [if_neg h1, if_neg h2, if_pos h3, if_neg h1, if_neg h2, if_pos h3]
        · rw [if_neg h1, if_neg h2, if_neg h3, if_neg h1, if_neg h2, if_neg h3]

theorem updAddr_id_switch {p : List Char} {a : HString16}
    (h : switchKeyOf p ≠ some ("address".toList)) : updAddr p a = a := by
  unfold updAddr
  cases hp : parsePair p with
  | none => rfl
  | some kv =>
    dsimp only
    rw [if_neg ?hne]
    case hne =>
      intro he
      exact h (by simp [switchKeyOf, hp, he])

theorem updAddr_id_temp {p : List Char} {a : HString16}
    (h : tempKeyOf p ≠ some ("address".toList)) : updAddr p a = a := by
  unfold updAddr
  cases hp : parsePair p with
  | none => rfl
  | some kv =>
    dsimp only
    rw [if_neg ?hne]
    case hne =>
      intro he
      exact h (by simp [tempKeyOf, hp, he])

theorem updIsOn_id {p : List Char} {b : Bool}
    (h : switchKeyOf p ≠ some ("is_on".toList)) : updIsOn p b = b := by
  unfold updIsOn
  cases hp : parsePair p with
  | none => rfl
  | some kv =>
    dsimp only
    rw [if_neg ?hne]
    case hne =>
      intro he
      exact h (by simp [switchKeyOf, hp, he])

theorem updTs_id_switch {p : List Char} {t : Nat}
    (h : switchKeyOf p ≠ some ("timestamp".toList)) : updTs p t = t := by
  unfold updTs
  cases hp : parsePair p with
  | none => rfl
  | some kv =>
    dsimp only
    rw [if_neg ?hne]
    case hne =>
      intro he
      exact h (by simp [switchKeyOf, hp, he])

theorem updTs_id_temp {p : List Char} {t : Nat}
    (h : tempKeyOf p ≠ some ("timestamp".toList)) : updTs p t = t := by
  unfold updTs
  cases hp : parsePair p with
  | none => rfl
  | some kv =>
    dsimp only
    rw [if_neg ?hne]
    case hne =>
      intro he
      exact h (by simp [tempKeyOf, hp, he])

theorem updCelsius_id {p : List Char} {q : ℚ}
    (h : tempKeyOf p ≠ some ("celsius".toList)) : updCelsius p q = q := by
  unfold updCelsius
  cases hp : parsePair p with
  | none => rfl
  | some kv =>
    dsimp only
    rw [if_neg ?hne]
    case hne =>
      intro he
      exact h (by simp [tempKeyOf, hp, he])

theorem applyPairSwitch_comm (x y : List Char)
    (hxy : x = y ∨ switchKeyOf x = none ∨ switchKeyOf y = none ∨
      switchKeyOf x ≠ switchKeyOf y) (z : HString16 × Bool × Nat) :
    applyPairSwitch (applyPairSwitch z x) y = applyPairSwitch (applyPairSwitch z y) x := by
  rcases hxy with h | h
  · rw [h]
  · have hkey : ∀ k, ¬(switchKeyOf x = some k ∧ switchKeyOf y = some k) := by
      rcases h with h0 | h0 | h0
      · intro k hc
        rw [h0] at hc
        cases hc.1
      · intro k hc
        rw [h0] at hc
        cases hc.2
      · intro k hc
        exact h0 (hc.1.trans hc.2.symm)
    rw [applyPairSwitch_eq, applyPairSwitch_eq, applyPairSwitch_eq, applyPairSwitch_eq]
    dsimp only
    simp only [Prod.mk.injEq]
    refine ⟨?_, ?_, ?_⟩
    · by_cases hx : switchKeyOf x = some ("address".toList)
      · have hy : switchKeyOf y ≠ some ("address".toList) :=
          fun hy => hkey _ ⟨hx, hy⟩
        rw [updAddr_id_switch hy, updAddr_id_switch hy]
      · rw [updAddr_id_switch hx, updAddr_id_switch hx]
    · by_cases hx : switchKeyOf x = some ("is_on".toList)
      · have hy : switchKeyOf y ≠ some ("is_on".toList) :=
          fun hy => hkey _ ⟨hx, hy⟩
        rw [updIsOn_id hy, updIsOn_id hy]
      · rw [updIsOn_id hx, updIsOn_id hx]
    · by_cases hx : switchKeyOf x = some ("timestamp".toList)
      · have hy : switchKeyOf y ≠ some ("timestamp".toList) :=
          fun hy => hkey _ ⟨hx, hy⟩
        rw [updTs_id_switch hy, updTs_id_switch hy]
      · rw [updTs_id_switch hx, updTs_id_switch hx]

theorem applyPairTemp_comm (x y : List Char)
    (hxy : x = y ∨ tempKeyOf x = none ∨ tempKeyOf y = none ∨
      tempKeyOf x ≠ tempKeyOf y) (z : HString16 × ℚ × Nat) :
    applyPairTemp (applyPairTemp z x) y = applyPairTemp (applyPairTemp z y) x := by
  rcases hxy with h | h
  · rw [h]
  · have hkey : ∀ k, ¬(tempKeyOf x = some k ∧ tempKeyOf y = some k) := by
      rcases h with h0 | h0 | h0
      · intro k hc
        rw [h0] at hc
        cases hc.1
      · intro k hc
        rw [h0] at hc
        cases hc.2
      · intro k hc
        exact h0 (hc.1.trans hc.2.symm)
    rw [applyPairTemp_eq, applyPairTemp_eq, applyPairTemp_eq, applyPairTemp_eq]
    dsimp only
    simp only [Prod.mk.injEq]
    refine ⟨?_, ?_, ?_⟩
    · by_cases hx : tempKeyOf x = some ("address".toList)
      · have hy : tempKeyOf y ≠ some ("address".toList) :=
          fun hy => hkey _ ⟨hx, hy⟩
        rw [updAddr_id_temp hy, updAddr_id_temp hy]
      · rw [updAddr_id_temp hx, updAddr_id_temp hx]
    · by_cases hx : tempKeyOf x = some ("celsius".toList)
      · have hy : tempKeyOf y ≠ some ("celsius".toList) :=
          fun hy => hkey _ ⟨hx, hy⟩
        rw [updCelsius_id hy, updCelsius_id hy]
      · rw [updCelsius_id hx, updCelsius_id hx]
    · by_cases hx : tempKeyOf x = some ("timestamp".toList)
      · have hy : tempKeyOf y ≠ some ("timestamp".toList) :=
          fun hy => hkey _ ⟨hx, hy⟩
        rw [updTs_id_temp hy, updTs_id_temp hy]
      · rw [updTs_id_temp hx, updTs_id_temp hx]

theorem applyPairSwitch_unknown {p : List Char} (h : switchKeyOf p = none)
    (st : HString16 × Bool × Nat) : applyPairSwitch st p = st := by
  unfold applyPairSwitch
  cases hp : parsePair p with
  | none => rfl
  | some kv =>
    dsimp only
    have hcond : ¬(kv.1 = "address".toList ∨ kv.1 = "is_on".toList ∨
        kv.1 = "timestamp".toList) := by
      intro hc
      rw [switchKeyOf, hp] at h
      dsimp only at h
      rw [if_pos hc] at h
      cases h
    rw [if_neg (fun h1 => hcond (Or.inl h1)),
      if_neg (fun h2 => hcond (Or.inr (Or.inl h2))),
      if_neg (fun h3 => hcond (Or.inr (Or.inr h3)))]

theorem applyPairTemp_unknown {p : List Char} (h : tempKeyOf p = none)
    (st : HString16 × ℚ × Nat) : applyPairTemp st p = st := by
  unfold applyPairTemp
  cases hp : parsePair p with
  | none => rfl
  | some kv =>
    dsimp only
    have hcond : ¬(kv.1 = "address".toList ∨ kv.1 = "celsius".toList ∨
        kv.1 = "timestamp".toList) := by
      intro hc
      rw [tempKeyOf, hp] at h
      dsimp only at h
      rw [if_pos hc] at h
      cases h
    rw [if_neg (fun h1 => hcond (Or.inl h1)),
      if_neg (fun h2 => hcond (Or.inr (Or.inl h2))),
      if_neg (fun h3 => hcond (Or.inr (Or.inr h3)))]

theorem nodup_filterMap_inj {f : List Char → Option (List Char)} :
    ∀ l : List (List Char), (l.filterMap f).Nodup →
      ∀ x ∈ l, ∀ y ∈ l, ∀ k, f x = some k → f y = some k → x = y := by
  intro l
  induction l with
  | nil =>
    intro _ x hx
    cases hx
  | cons p ps ih =>
    intro hnd x hx y hy k hkx hky
    cases hf : f p with
    | none =>
      have hnd2 : (ps.filterMap f).Nodup := by
        rw [List.filterMap_cons, hf] at hnd
        exact hnd
      rcases List.mem_cons.mp hx with hx1 | hx1
      · rw [hx1, hf] at hkx
        cases hkx
      · rcases List.mem_cons.mp hy with hy1 | hy1
        · rw [hy1, hf] at hky
          cases hky
        · exact ih hnd2 x hx1 y hy1 k hkx hky
    | some v =>
      rw [List.filterMap_cons, hf] at hnd
      have hnotin : v ∉ ps.filterMap f := (List.nodup_cons.mp hnd).1
      have hnd2 : (ps.filterMap f).Nodup := (List.nodup_cons.mp hnd).2
      rcases List.mem_cons.mp hx with hx1 | hx1
      · rcases List.mem_cons.mp hy with hy1 | hy1
        · rw [hx1, hy1]
        · exfalso
          have hkv : v = k := by
            rw [hx1, hf] at hkx
            injection hkx
          exact hnotin (hkv ▸ List.mem_filterMap.mpr ⟨y, hy1, hky⟩)
      · rcases List.mem_cons.mp hy with hy1 | hy1
        · exfalso
          have hkv : v = k := by
            rw [hy1, hf] at hky
            injection hky
          exact hnotin (hkv ▸ List.mem_filterMap.mpr ⟨x, hx1, hkx⟩)
        · exact ih hnd2 x hx1 y hy1 k hkx hky

theorem mem_joinPairs {c : Char} :
    ∀ {ps : List (List Char)}, c ∈ joinPairs ps → (∃ p ∈ ps, c ∈ p) ∨ c = ',' := by
  intro ps
  induction ps with
  | nil =>
    intro hc
    cases hc
  | cons p ps ih =>
    cases ps with
    | nil =>
      intro hc
      exact Or.inl ⟨p, by simp, hc⟩
    | cons q rest =>
      intro hc
      rw [show joinPairs (p :: q :: rest) = p ++ ',' :: joinPairs (q :: rest) from rfl] at hc
      rcases List.mem_append.mp hc with h | h
      · exact Or.inl ⟨p, by simp, h⟩
      · rcases List.mem_cons.mp h with h | h
        · exact Or.inr h
        · rcases ih h with ⟨r, hr, hcr⟩ | h2
          · exact Or.inl ⟨r, by simp [hr], hcr⟩
          · exact Or.inr h2

theorem splitOnChar_joinPairs :
    ∀ ps : List (List Char), ps ≠ [] → (∀ p ∈ ps, ∀ c ∈ p, c ≠ ',') →
      splitOnChar ',' (joinPairs ps) = ps := by
  intro ps
  induction ps with
  | nil =>
    intro h
    exact absurd rfl h
  | cons p ps ih =>
    intro _ h
    cases ps with
    | nil =>
      rw [joinPairs]
      exact splitOnChar_of_not_mem ',' p (h p (by simp))
    | cons q rest =>
      rw [show joinPairs (p :: q :: rest) = p ++ ',' :: joinPairs (q :: rest) from rfl,
        splitOnChar_append ',' p _ (h p (by simp))]
      rw [ih (by simp) (fun r hr c hc => h r (by simp [hr]) c hc)]

theorem trim_mkPayload (ps : List (List Char))
    (h : ∀ p ∈ ps, ∀ c ∈ p, isBraceChar c = false) :
    trimMatchesP isBraceChar (mkPayload ps) = joinPairs ps := by
  unfold mkPayload
  apply trimMatchesP_wrap (by decide) (by decide)
  intro c hc
  rcases mem_joinPairs hc with ⟨p, hp, hcp⟩ | h2
  · exact h p hp c hcp
  · rw [h2]
    decide

theorem deserializeSwitchFields_mkPayload (ps : List (List Char))
    (h : ∀ p ∈ ps, ∀ c ∈ p, c ≠ ',' ∧ isBraceChar c = false) :
    deserializeSwitchFields (mkPayload ps) =
      ps.foldl applyPairSwitch (HString16.empty, false, 0) := by
  cases ps with
  | nil => decide
  | cons p rest =>
    unfold deserializeSwitchFields
    rw [trim_mkPayload _ (fun r hr c hc => (h r hr c hc).2)]
    rw [splitOnChar_joinPairs _ (by simp) (fun r hr c hc => (h r hr c hc).1)]

theorem deserializeTempFields_mkPayload (ps : List (List Char))
    (h : ∀ p ∈ ps, ∀ c ∈ p, c ≠ ',' ∧ isBraceChar c = false) :
    deserializeTempFields (mkPayload ps) =
      ps.foldl applyPairTemp (HString16.empty, 0, 0) := by
  cases ps with
  | nil => decide
  | cons p rest =>
    unfold deserializeTempFields
    rw [trim_mkPayload _ (fun r hr c hc => (h r hr c hc).2)]
    rw [splitOnChar_joinPairs _ (by simp) (fun r hr c hc => (h r hr c hc).1)]

/-- C6 counterexample: the two payloads carry the same comma-separated
pairs in permuted order (the key `is_on` appearing twice), yet decode to
different values — the parse loop is last-write-wins, so permutation
independence fails for payloads with a repeated key. -/
theorem textual_decode_order_dependent :
    (splitOnChar ',' (trimMatchesP isBraceChar
        "\x7b\"is_on\":true,\"is_on\":false\x7d".toList)).Perm
      (splitOnChar ',' (trimMatchesP isBraceChar
        "\x7b\"is_on\":false,\"is_on\":true\x7d".toList)) ∧
    deserialize_state (utf8Encode "\x7b\"is_on\":true,\"is_on\":false\x7d".toList) =
      .ok ⟨⟨[]⟩, false, 0⟩ ∧
    deserialize_state (utf8Encode "\x7b\"is_on\":false,\"is_on\":true\x7d".toList) =
      .ok ⟨⟨[]⟩, true, 0⟩ ∧
    deserialize_state (utf8Encode "\x7b\"is_on\":true,\"is_on\":false\x7d".toList) ≠
      deserialize_state (utf8Encode "\x7b\"is_on\":false,\"is_on\":true\x7d".toList) := by
  refine ⟨by decide, by decide, by decide, by decide⟩

/-- C6 amended: the tolerant decode is order-independent and ignores
unknown keys for well-formed pair lists: payloads built from pairs free of
commas and braces in which each recognized key appears in at most one pair
decode identically under any permutation of the pairs, and inserting a
pair whose key is not recognized (for the respective parser) anywhere in
the list leaves the decoded value unchanged. -/
theorem textual_decode_order_insensitive (ps qs : List (List Char))
    (hwf : ∀ p ∈ ps, ∀ c ∈ p, c ≠ ',' ∧ isBraceChar c = false)
    (hperm : ps.Perm qs)
    (hnodupS : (ps.filterMap switchKeyOf).Nodup)
    (hnodupT : (ps.filterMap tempKeyOf).Nodup) :
    (deserializeSwitchFields (mkPayload ps) = deserializeSwitchFields (mkPayload qs) ∧
      deserializeTempFields (mkPayload ps) = deserializeTempFields (mkPayload qs)) ∧
    (∀ u l1 l2, ps = l1 ++ l2 → (∀ c ∈ u, c ≠ ',' ∧ isBraceChar c = false) →
      (switchKeyOf u = none →
        deserializeSwitchFields (mkPayload (l1 ++ u :: l2)) =
          deserializeSwitchFields (mkPayload ps)) ∧
      (tempKeyOf u = none →
        deserializeTempFields (mkPayload (l1 ++ u :: l2)) =
          deserializeTempFields (mkPayload ps))) := by
  have hwfq : ∀ p ∈ qs, ∀ c ∈ p, c ≠ ',' ∧ isBraceChar c = false :=
    fun p hp => hwf p (hperm.mem_iff.mpr hp)
  constructor
  · constructor
    · rw [deserializeSwitchFields_mkPayload ps hwf,
        deserializeSwitchFields_mkPayload qs hwfq]
      apply hperm.foldl_eq'
      intro x hx y hy z
      apply applyPairSwitch_comm
      by_cases hxy : x = y
      · exact Or.inl hxy
      · right
        by_cases hx0 : switchKeyOf x = none
        · exact Or.inl hx0
        · right
          by_cases hy0 : switchKeyOf y = none
          · exact Or.inl hy0
          · right
            intro heq
            rcases Option.ne_none_iff_exists'.mp hx0 with ⟨k, hk⟩
            exact hxy (nodup_filterMap_inj ps hnodupS x hx y hy k hk
              (heq.symm.trans hk))
    · rw [deserializeTempFields_mkPayload ps hwf,
        deserializeTempFields_mkPayload qs hwfq]
      apply hperm.foldl_eq'
      intro x hx y hy z
      apply applyPairTemp_comm
      by_cases hxy : x = y
      · exact Or.inl hxy
      · right
        by_cases hx0 : tempKeyOf x = none
        · exact Or.inl hx0
        · right
          by_cases hy0 : tempKeyOf y = none
          · exact Or.inl hy0
          · right
            intro heq
            rcases Option.ne_none_iff_exists'.mp hx0 with ⟨k, hk⟩
            exact hxy (nodup_filterMap_inj ps hnodupT x hx y hy k hk
              (heq.symm.trans hk))
  · intro u l1 l2 hsplit hu
    have hwfIns : ∀ p ∈ l1 ++ u :: l2, ∀ c ∈ p, c ≠ ',' ∧ isBraceChar c = false := by
      intro p hp
      rcases List.mem_append.mp hp with h | h
      · exact hwf p (by rw [hsplit]; exact List.mem_append.mpr (Or.inl h))
      · rcases List.mem_cons.mp h with h | h
        · rw [h]
          exact hu
        · exact hwf p (by rw [hsplit]; exact List.mem_append.mpr (Or.inr h))
    constructor
    · intro hunk
      rw [deserializeSwitchFields_mkPayload _ hwfIns,
        deserializeSwitchFields_mkPayload ps hwf, hsplit]
      rw [List.foldl_append, List.foldl_append, List.foldl_cons,
        applyPairSwitch_unknown hunk]
    · intro hunk
      rw [deserializeTempFields_mkPayload _ hwfIns,
        deserializeTempFields_mkPayload ps hwf, hsplit]
      rw [List.foldl_append, List.foldl_append, List.foldl_cons,
        applyPairTemp_unknown hunk]

/-- C6 witness: the amended theorem applied to the two-pair list
`"is_on":true`, `"timestamp":5` and its transposition. -/
theorem textual_decode_order_insensitive_witness :
    deserializeSwitchFields
        (mkPayload ["\"is_on\":true".toList, "\"timestamp\":5".toList]) =
      deserializeSwitchFields
        (mkPayload ["\"timestamp\":5".toList, "\"is_on\":true".toList]) :=
  ((textual_decode_order_insensitive
    ["\"is_on\":true".toList, "\"timestamp\":5".toList]
    ["\"timestamp\":5".toList, "\"is_on\":true".toList]
    (by decide) (by decide) (by decide) (by decide)).1).1

/-! ## C8 — DPT 9.001 accuracy -/

theorem dpt9_word_arith (e : Nat) (m : Int) (he : e < 16)
    (hm1 : -2048 ≤ m) (hm2 : m ≤ 2047) :
    dpt9ExpOf (dpt9WordOf (dpt9Word e m / 256) (dpt9Word e m % 256)) = e ∧
    dpt9MantOf (dpt9WordOf (dpt9Word e m / 256) (dpt9Word e m % 256)) = m := by
  have hm12a : ((m % 4096).toNat : Int) = m % 4096 :=
    Int.toNat_of_nonneg (Int.emod_nonneg m (by norm_num))
  have hm12 : ((m % 4096).toNat : Int) = m ∨ ((m % 4096).toNat : Int) = m + 4096 := by
    omega
  have hm12lt : (m % 4096).toNat < 4096 := by omega
  unfold dpt9Word dpt9WordOf dpt9ExpOf dpt9MantOf
  constructor
  · omega
  · split_ifs with hs
    · omega
    · omega
theorem dpt9Decode_pack (e : Nat) (m : Int) (he : e < 16)
    (hm1 : -2048 ≤ m) (hm2 : m ≤ 2047) :
    dpt9Decode (dpt9Pack e m) = .ok ((m : ℚ) * 2 ^ e / 100) := by
  obtain ⟨h1, h2⟩ := dpt9_word_arith e m he hm1 hm2
  have hstep : dpt9Decode (dpt9Pack e m) =
      .ok (dpt9Val (dpt9Word e m / 256) (dpt9Word e m % 256)) := rfl
  rw [hstep, dpt9Val, h1, h2]

theorem roundNearest_abs (q : ℚ) : |(roundNearest q : ℚ) - q| ≤ 1 / 2 := by
  unfold roundNearest
  have h1 : ((⌊q + 1 / 2⌋ : ℤ) : ℚ) ≤ q + 1 / 2 := Int.floor_le (q + 1 / 2)
  have h2 : q + 1 / 2 - 1 < ((⌊q + 1 / 2⌋ : ℤ) : ℚ) := Int.sub_one_lt_floor (q + 1 / 2)
  rw [abs_le]
  constructor <;> linarith

theorem dpt9Mant_err (t : ℚ) (e : Nat) :
    |(dpt9Mant t e : ℚ) * 2 ^ e / 100 - t| ≤ dpt9Step e / 2 := by
  have hb := roundNearest_abs (t * 100 / 2 ^ e)
  have hpos : (0 : ℚ) < 2 ^ e / 100 := by positivity
  have hrw : (dpt9Mant t e : ℚ) * 2 ^ e / 100 - t =
      ((dpt9Mant t e : ℚ) - t * 100 / 2 ^ e) * (2 ^ e / 100) := by
    have h2 : (2 : ℚ) ^ e ≠ 0 := by positivity
    field_simp
    ring
  rw [hrw, abs_mul, abs_of_pos hpos, dpt9Step]
  calc |(dpt9Mant t e : ℚ) - t * 100 / 2 ^ e| * (2 ^ e / 100)
      ≤ (1 / 2) * (2 ^ e / 100) := by
        exact mul_le_mul_of_nonneg_right hb (le_of_lt hpos)
    _ = 2 ^ e / 100 / 2 := by ring

theorem dpt9Mant_top {t : ℚ} (h1 : dpt9MinQ ≤ t) (h2 : t ≤ dpt9MaxQ) :
    -2048 ≤ dpt9Mant t 15 ∧ dpt9Mant t 15 ≤ 2047 := by
  unfold dpt9MinQ at h1
  unfold dpt9MaxQ at h2
  unfold dpt9Mant roundNearest
  constructor
  · rw [Int.le_floor]
    push_cast
    norm_num at h1 ⊢
    linarith
  · have : ⌊t * 100 / 2 ^ 15 + 1 / 2⌋ < 2048 := by
      rw [Int.floor_lt]
      push_cast
      norm_num at h2 ⊢
      linarith
    omega

theorem dpt9ExpFor_spec {t : ℚ} (h1 : dpt9MinQ ≤ t) (h2 : t ≤ dpt9MaxQ) :
    dpt9ExpFor t < 16 ∧ -2048 ≤ dpt9Mant t (dpt9ExpFor t) ∧
      dpt9Mant t (dpt9ExpFor t) ≤ 2047 := by
  unfold dpt9ExpFor
  cases hf : (List.range 16).find? (fun e =>
      decide (-2048 ≤ dpt9Mant t e ∧ dpt9Mant t e ≤ 2047)) with
  | none =>
    exfalso
    have h15 : (15 : Nat) ∈ List.range 16 := by decide
    have hnone := List.find?_eq_none.mp hf 15 h15
    simp only [decide_eq_true_eq] at hnone
    exact hnone (dpt9Mant_top h1 h2)
  | some e =>
    have hp := List.find?_some hf
    have hmem := List.mem_of_find?_eq_some hf
    simp only [decide_eq_true_eq] at hp
    simp only [Option.getD_some]
    exact ⟨List.mem_range.mp hmem, hp⟩

/-- C8: within the representable range of the modelled DPT 9.001 format,
decoding the encoding of a temperature reproduces it to within the format's
resolution step at the exponent the encoder chose (indeed to within half a
step, as the encoder rounds to the nearest representable mantissa), and
out-of-range inputs saturate to the encoding of the format's maximum or
minimum rather than overflowing. -/
theorem dpt9_codec_accuracy (t : ℚ) :
    (dpt9MinQ ≤ t → t ≤ dpt9MaxQ →
      ∃ e m, e < 16 ∧ -2048 ≤ m ∧ m ≤ 2047 ∧
        dpt9Encode t = dpt9Pack e m ∧
        dpt9Decode (dpt9Encode t) = .ok ((m : ℚ) * 2 ^ e / 100) ∧
        |(m : ℚ) * 2 ^ e / 100 - t| ≤ dpt9Step e) ∧
    (dpt9MaxQ < t → dpt9Encode t = dpt9Encode dpt9MaxQ) ∧
    (t < dpt9MinQ → dpt9Encode t = dpt9Encode dpt9MinQ) := by
  have hminmax : ¬(dpt9MaxQ ≤ dpt9MinQ) := by
    norm_num [dpt9MaxQ, dpt9MinQ]
  refine ⟨?_, ?_, ?_⟩
  · intro h1 h2
    by_cases hmax : dpt9MaxQ ≤ t
    · have ht : t = dpt9MaxQ := le_antisymm h2 hmax
      refine ⟨15, 2047, by norm_num, by norm_num, by norm_num, ?_, ?_, ?_⟩
      · unfold dpt9Encode
        rw [if_pos hmax]
      · unfold dpt9Encode
        rw [if_pos hmax]
        exact dpt9Decode_pack 15 2047 (by norm_num) (by norm_num) (by norm_num)
      · rw [ht]
        unfold dpt9MaxQ dpt9Step
        norm_num
    · by_cases hmin : t ≤ dpt9MinQ
      · have ht : t = dpt9MinQ := le_antisymm hmin h1
        refine ⟨15, -2048, by norm_num, by norm_num, by norm_num, ?_, ?_, ?_⟩
        · unfold dpt9Encode
          rw [if_neg hmax, if_pos hmin]
        · unfold dpt9Encode
          rw [if_neg hmax, if_pos hmin]
          exact dpt9Decode_pack 15 (-2048) (by norm_num) (by norm_num) (by norm_num)
        · rw [ht]
          unfold dpt9MinQ dpt9Step
          norm_num
      · obtain ⟨he, hb1, hb2⟩ := dpt9ExpFor_spec h1 h2
        refine ⟨dpt9ExpFor t, dpt9Mant t (dpt9ExpFor t), he, hb1, hb2, ?_, ?_, ?_⟩
        · unfold dpt9Encode
          rw [if_neg hmax, if_neg hmin]
        · unfold dpt9Encode
          rw [if_neg hmax, if_neg hmin]
          exact dpt9Decode_pack _ _ he hb1 hb2
        · have herr := dpt9Mant_err t (dpt9ExpFor t)
          have hstep : (0 : ℚ) < dpt9Step (dpt9ExpFor t) := by
            unfold dpt9Step
            positivity
          linarith
  · intro h
    unfold dpt9Encode
    rw [if_pos (le_of_lt h), if_pos le_rfl]
  · intro h
    unfold dpt9Encode
    rw [if_neg (fun hc => hminmax (le_trans hc (le_of_lt h))),
      if_pos (le_of_lt h), if_neg hminmax, if_pos le_rfl]

/-- C8 witness: the accuracy statement at the concrete temperature 21 °C. -/
theorem dpt9_codec_accuracy_witness :
    ∃ e m, e < 16 ∧ -2048 ≤ m ∧ m ≤ 2047 ∧
      dpt9Encode 21 = dpt9Pack e m ∧
      dpt9Decode (dpt9Encode 21) = .ok ((m : ℚ) * 2 ^ e / 100) ∧
      |(m : ℚ) * 2 ^ e / 100 - 21| ≤ dpt9Step e :=
  (dpt9_codec_accuracy 21).1 (by norm_num [dpt9MinQ]) (by norm_num [dpt9MaxQ])

end HomePilot
